import Mathlib

/-!
# Movies REST API: validation and handlers

A shallow embedding of `src/schemas-zod/movies.js` (the movie schema and the two
validators built on it) and of the four `/movies` handlers of `src/app.js`, followed by
theorems about them.

Values are parsed JSON. Three things the program takes from its platform are parameters
here: whether a text parses as a URL, lower-casing of a text, and the identifier that
`crypto.randomUUID()` hands out.
-/

namespace MoviesApi

/-! ## JSON values and objects -/

/-- A parsed JSON value. Numbers are rationals: every finite number a JSON text denotes
is one. An object lists its properties in enumeration order. -/
inductive Json where
  | null : Json
  | bool (b : Bool) : Json
  | num (q : ℚ) : Json
  | str (s : String) : Json
  | arr (elems : List Json) : Json
  | obj (props : List (String × Json)) : Json

/-- The properties of an object, in enumeration order. -/
abbrev JObj := List (String × Json)

/-- Property read `o[k]` on an object: `none` stands for `undefined`. -/
def JObj.get? (o : JObj) (k : String) : Option Json :=
  match o with
  | [] => none
  | (k', v) :: rest => if k' = k then some v else JObj.get? rest k

/-- Property write `o[k] = v`: an existing property keeps its place, a new one goes last
(names that are array indices, which JavaScript enumerates before the others, are not
treated apart: no handler depends on the order of properties). -/
def JObj.set (o : JObj) (k : String) (v : Json) : JObj :=
  match o with
  | [] => [(k, v)]
  | (k', v') :: rest => if k' = k then (k, v) :: rest else (k', v') :: JObj.set rest k v

/-- The object literal `{ ...target, ...source }`: a copy of `target` onto which every
property of `source`, in order, is written. -/
def JObj.spread (target source : JObj) : JObj :=
  source.foldl (fun acc kv => JObj.set acc kv.1 kv.2) target

/-- Property read `v[k]` on any value, for the keys the program reads (none of them is
an array index or `length`): only an object has such a property. -/
def Json.get? (v : Json) (k : String) : Option Json :=
  match v with
  | .obj props => JObj.get? props k
  | _ => none

/-- The own enumerable properties that a spread `...v` copies: those of an object; the
indices of an array; none for `null`, a boolean or a number. A text spreads its
characters, which the program never reaches, its spreads following a successful object
validation. -/
def Json.ownProps (v : Json) : JObj :=
  match v with
  | .obj props => props
  | .arr elems => elems.enum.map (fun ix => (toString ix.1, ix.2))
  | .str s => s.data.enum.map (fun ix => (toString ix.1, Json.str (String.singleton ix.2)))
  | _ => []

/-- Strict equality `v === s` of a possibly undefined value with a text. -/
def strictEqStr (v : Option Json) (s : String) : Bool :=
  match v with
  | some (.str t) => decide (t = s)
  | _ => false

/-! ## The platform -/

/-- What the program takes from its runtime: `new URL(s)` succeeding, which the URL check
of the validation library relies on, and `String.prototype.toLowerCase`. -/
structure Platform where
  parsesAsURL : String → Bool
  toLowerCase : String → String

/-! ## The validation library, as far as `movieSchema` uses it -/

/-- One step of an issue path: a property name or an array index. -/
inductive PathSeg where
  | key (k : String) : PathSeg
  | idx (i : Nat) : PathSeg
deriving DecidableEq, Repr

/-- A violation: its code and the path of the offending value. The human-readable message
(the only thing `required_error` changes) is left out. -/
structure ZodIssue where
  code : String
  path : List PathSeg
deriving DecidableEq, Repr

/-- A refinement on a number: `.int()`, `.min(v)` / `.positive()`, `.max(v)`. -/
inductive NumCheck where
  | int : NumCheck
  | min (v : ℚ) (inclusive : Bool) : NumCheck
  | max (v : ℚ) (inclusive : Bool) : NumCheck

/-- The schemas of fields: `zod.string()` with or without `.url()`, `zod.number()` with
its refinements, `zod.enum([...])`, `.array()`, `.optional()`. -/
inductive ZodType where
  | string (url : Bool) : ZodType
  | number (checks : List NumCheck) : ZodType
  | enum (options : List String) : ZodType
  | array (element : ZodType) : ZodType
  | optional (inner : ZodType) : ZodType

/-- The issue one refinement raises on the number `q`, if any. -/
def NumCheck.issue? (c : NumCheck) (q : ℚ) (path : List PathSeg) : Option ZodIssue :=
  match c with
  | .int => if q.den = 1 then none else some ⟨"invalid_type", path⟩
  | .min v inclusive =>
      if (if inclusive then q < v else q ≤ v) then some ⟨"too_small", path⟩ else none
  | .max v inclusive =>
      if (if inclusive then v < q else v ≤ q) then some ⟨"too_big", path⟩ else none

/-- Parsing a possibly undefined value against a field schema: the issues raised, and the
parsed value (`none` when the parse is aborted, or for an absent optional value). All
refinements of a number run; an array parses every element. -/
def ZodType.parse (pf : Platform) : ZodType → List PathSeg → Option Json →
    List ZodIssue × Option Json
  | .string url, path, input =>
      match input with
      | some (.str s) =>
          (if url && !pf.parsesAsURL s then [⟨"invalid_string", path⟩] else [], some (.str s))
      | _ => ([⟨"invalid_type", path⟩], none)
  | .number checks, path, input =>
      match input with
      | some (.num q) => (checks.filterMap (fun c => c.issue? q path), some (.num q))
      | _ => ([⟨"invalid_type", path⟩], none)
  | .enum options, path, input =>
      match input with
      | some (.str s) =>
          if s ∈ options then ([], some (.str s)) else ([⟨"invalid_enum_value", path⟩], none)
      | _ => ([⟨"invalid_type", path⟩], none)
  | .array element, path, input =>
      match input with
      | some (.arr elems) =>
          let results := elems.enum.map
            (fun ix => ZodType.parse pf element (path ++ [PathSeg.idx ix.1]) (some ix.2))
          (results.flatMap (fun r => r.1),
            if results.all (fun r => r.2.isSome) then
              some (.arr (results.filterMap (fun r => r.2)))
            else none)
      | _ => ([⟨"invalid_type", path⟩], none)
  | .optional inner, path, input =>
      match input with
      | none => ([], none)
      | some v => ZodType.parse pf inner path (some v)

/-- An object schema `zod.object({...})`: its shape, in declaration order. -/
abbrev ZodObject := List (String × ZodType)

/-- The schema `.partial()` builds: every field of the shape made optional. -/
def ZodObject.toPartial (shape : ZodObject) : ZodObject :=
  shape.map (fun kt => (kt.1, ZodType.optional kt.2))

/-- The result of `safeParse`: the validated data, or the issues (never empty). -/
inductive SafeParseResult where
  | success (data : JObj) : SafeParseResult
  | failure (issues : List ZodIssue) : SafeParseResult

/-- The parse of each field of the shape against the property of that name. -/
def ZodObject.parseFields (pf : Platform) (shape : ZodObject) (props : JObj) :
    List (String × List ZodIssue × Option Json) :=
  shape.map (fun kt => (kt.1, ZodType.parse pf kt.2 [PathSeg.key kt.1] (JObj.get? props kt.1)))

/-- All issues of the fields, in the order of the shape. -/
def ZodObject.issues (pf : Platform) (shape : ZodObject) (props : JObj) : List ZodIssue :=
  (ZodObject.parseFields pf shape props).flatMap (fun r => r.2.1)

/-- The validated object: the fields of the shape with a parsed value, in the order of the
shape; properties the shape does not name are stripped. -/
def ZodObject.data (pf : Platform) (shape : ZodObject) (props : JObj) : JObj :=
  (ZodObject.parseFields pf shape props).filterMap (fun r => r.2.2.map (fun v => (r.1, v)))

/-- The call `schema.safeParse(input)` on an object schema: anything but an object is an
`invalid_type` issue at the root; otherwise success exactly when no field raised an issue. -/
def ZodObject.safeParse (pf : Platform) (shape : ZodObject) (input : Json) : SafeParseResult :=
  match input with
  | .obj props =>
      match ZodObject.issues pf shape props with
      | [] => .success (ZodObject.data pf shape props)
      | i :: is => .failure (i :: is)
  | _ => .failure [⟨"invalid_type", []⟩]

/-! ## `src/schemas-zod/movies.js` -/

/-- The labels of `zod.enum([...])` in the `genre` field. -/
def genreLabels : List String :=
  ["Action", "Adventure", "Drama", "Sci-fi", "Terror", "Horror", "Romance"]

/-- The schema `movieSchema`. -/
def movieSchema : ZodObject :=
  [ ("title", .string false),
    ("year", .number [.int, .min 1950 true, .max 2025 true]),
    ("director", .string false),
    ("duration", .number [.min 0 false]),
    ("poster", .string true),
    ("genre", .array (.enum genreLabels)),
    ("rate", .optional (.number [.min 0 true, .max 10 true])) ]

/-- The function `verifyMovie`. -/
def verifyMovie (pf : Platform) (object : Json) : SafeParseResult :=
  ZodObject.safeParse pf movieSchema object

/-- The function `verifyMoviePartial`. -/
def verifyMoviePartial (pf : Platform) (object : Json) : SafeParseResult :=
  ZodObject.safeParse pf (ZodObject.toPartial movieSchema) object

/-- The violation list of a result: the issues of a failure, none for a success. -/
def SafeParseResult.violations (r : SafeParseResult) : List ZodIssue :=
  match r with
  | .success _ => []
  | .failure issues => issues

/-- An issue cites a field when its path starts at that field: the field itself, or an
element inside it. -/
def ZodIssue.cites (i : ZodIssue) (field : String) : Prop :=
  i.path.head? = some (PathSeg.key field)

/-! ## `src/app.js`: the store and the `/movies` handlers -/

/-- The array `movies`: the records, in insertion order. -/
abbrev Store := List JObj

/-- What a handler sends: a sequence of records or one record (`res.json` of them),
nothing (`res.json(undefined)`), the parsed issue list under `error`, a text under
`message`, or an HTML text. -/
inductive Body where
  | movies (ms : List JObj) : Body
  | movie (m : JObj) : Body
  | nothing : Body
  | error (issues : List ZodIssue) : Body
  | message (text : String) : Body
  | html (text : String) : Body

/-- A response: its status code and what it sends. -/
structure Response where
  status : Nat
  body : Body

/-- Truthiness of a query parameter that is absent or a text: only a non-empty text is
truthy. -/
def truthy (param : Option String) : Bool :=
  match param with
  | none => false
  | some s => decide (s ≠ "")

/-- The callback `gen => gen.toLowerCase() === genre.toLowerCase()` under `some`, over the
elements of a genre array: `none` stands for the TypeError thrown at an element that is
not a text, reached before any match. -/
def someGenre (pf : Platform) (genre : String) : List Json → Option Bool
  | [] => some false
  | .str gen :: rest =>
      if pf.toLowerCase gen = pf.toLowerCase genre then some true else someGenre pf genre rest
  | _ :: _ => none

/-- The callback `movie => movie.genre.some(...)`: `none` stands for the TypeError thrown
when `movie.genre` is not an array, or inside `some`. -/
def matchesGenre (pf : Platform) (genre : String) (movie : JObj) : Option Bool :=
  match JObj.get? movie "genre" with
  | some (.arr gens) => someGenre pf genre gens
  | _ => none

/-- The expression `movies.filter(movie => movie.genre.some(...))` of the genre branch:
`none` when the callback throws on some record. -/
def filterByGenre (pf : Platform) (genre : String) : Store → Option (List JObj)
  | [] => some []
  | movie :: rest =>
      match matchesGenre pf genre movie with
      | none => none
      | some keep =>
          match filterByGenre pf genre rest with
          | none => none
          | some kept => some (if keep then movie :: kept else kept)

/-- The expression `movies.find(movie => movie.title.toLowerCase() === search.toLowerCase())`
of the search branch: the first match or `undefined` (inner `none`); outer `none` when
the callback throws on a record whose `title` is not a text, reached before any match. -/
def findByTitle (pf : Platform) (search : String) : Store → Option (Option JObj)
  | [] => some none
  | movie :: rest =>
      match JObj.get? movie "title" with
      | some (.str title) =>
          if pf.toLowerCase title = pf.toLowerCase search then some (some movie)
          else findByTitle pf search rest
      | _ => none

/-- The handler `app.get('/movies')`, for query parameters that are absent or a text:
`none` when an exception leaves the handler. -/
def getMovies (pf : Platform) (movies : Store) (genre search : Option String) :
    Option Response :=
  if truthy genre then
    (filterByGenre pf (genre.getD "") movies).map (fun filteredMovies =>
      ⟨200, .movies filteredMovies⟩)
  else if truthy search then
    (findByTitle pf (search.getD "") movies).map (fun filteredMovie =>
      match filteredMovie with
      | some movie => ⟨200, .movie movie⟩
      | none => ⟨200, .nothing⟩)
  else some ⟨200, .movies movies⟩

/-- The callback `movie => movie.id === id`. -/
def hasId (id : String) (movie : JObj) : Bool :=
  strictEqStr (JObj.get? movie "id") id

/-- The handler `app.get('/movies/:id')`. -/
def getMovieById (movies : Store) (id : String) : Response :=
  match movies.find? (hasId id) with
  | some movie => ⟨200, .movie movie⟩
  | none => ⟨404, .html "<h1>Movie not found</h1>"⟩

/-- The handler `app.post('/movies')`: the store it leaves and the response. The new
record is `{ id: crypto.randomUUID(), ...req.body }`, with `uuid` the identifier drawn. -/
def postMovies (pf : Platform) (uuid : String) (movies : Store) (body : Json) :
    Store × Response :=
  match verifyMovie pf body with
  | .failure issues => (movies, ⟨422, .error issues⟩)
  | .success _ =>
      let newMovie := JObj.spread [("id", Json.str uuid)] body.ownProps
      (movies ++ [newMovie], ⟨201, .movie newMovie⟩)

/-- The handler `app.patch('/movies/:id')`: the store it leaves and the response. The
handler has no statement that writes to `movies`. -/
def patchMovie (pf : Platform) (movies : Store) (id : String) (body : Json) :
    Store × Response :=
  let result := verifyMoviePartial pf body
  match movies.findIdx? (hasId id) with
  | none => (movies, ⟨404, .message "Movie not found"⟩)
  | some movieEdit =>
      match result with
      | .failure issues => (movies, ⟨400, .error issues⟩)
      | .success data =>
          let updatedMovie := JObj.spread (movies.getD movieEdit []) data
          (movies, ⟨201, .movie updatedMovie⟩)

/-- The genre sequence of a record, as texts: the text elements of its `genre` array. -/
def genreTexts (movie : JObj) : List String :=
  match JObj.get? movie "genre" with
  | some (.arr gens) => gens.filterMap (fun gen =>
      match gen with
      | .str s => some s
      | _ => none)
  | _ => []

/-- The title of a record, as a text: none when its `title` is absent or not a text. -/
def titleText (movie : JObj) : Option String :=
  match JObj.get? movie "title" with
  | some (.str title) => some title
  | _ => none

/-- A record satisfies the full movie schema when `verifyMovie` raises no violation on
it: each schema field passes the check that `verifyMovie` applies. -/
def satisfiesSchema (pf : Platform) (movie : JObj) : Prop :=
  (verifyMovie pf (.obj movie)).violations = []

/-- Partial validation as the specification words it: every field is optional, and a
field that is present must satisfy the constraint that full validation applies to it,
which is the schema of that field in `movieSchema` raising no issue on its value. -/
def presentFieldsPass (pf : Platform) (props : JObj) : Bool :=
  movieSchema.all (fun kt =>
    match JObj.get? props kt.1 with
    | none => true
    | some v => (ZodType.parse pf kt.2 [PathSeg.key kt.1] (some v)).1.isEmpty)

/-! ## Sample data, for evaluating the definitions on concrete inputs -/

/-- A platform to evaluate with: a text counts as a URL when it starts with `http://`,
and lower-casing is that of the ASCII letters. -/
def samplePlatform : Platform :=
  ⟨fun s => "http://".data.isPrefixOf s.data, fun s => String.mk (s.data.map Char.toLower)⟩

/-- The payload of the scenario "create Dune": every required field, no `rate`. -/
def duneBody : JObj :=
  [ ("title", .str "Dune"), ("year", .num 1984), ("director", .str "D. Lynch"),
    ("duration", .num 137), ("poster", .str "http://x.com/p.jpg"),
    ("genre", .arr [.str "Sci-fi"]) ]

/-- The Dune payload stored under the identifier `m1`. -/
def storedDune : JObj := ("id", .str "m1") :: duneBody

/-- The Dune payload with an empty `genre` sequence. -/
def emptyGenreBody : JObj :=
  [ ("title", .str "Dune"), ("year", .num 1984), ("director", .str "D. Lynch"),
    ("duration", .num 137), ("poster", .str "http://x.com/p.jpg"), ("genre", .arr []) ]

/-- The Dune payload with an empty `title` and an empty `director`. -/
def untitledBody : JObj :=
  [ ("title", .str ""), ("year", .num 1984), ("director", .str ""),
    ("duration", .num 137), ("poster", .str "http://x.com/p.jpg"),
    ("genre", .arr [.str "Sci-fi"]) ]

/-- A stored record of genre `["Action"]`. -/
def storedAction : JObj :=
  [ ("id", .str "m2"), ("title", .str "Mad Max"), ("year", .num 1979),
    ("director", .str "G. Miller"), ("duration", .num 88),
    ("poster", .str "http://x.com/m.jpg"), ("genre", .arr [.str "Action"]) ]

/-- A second stored record whose title is that of Dune in another case. -/
def storedDuneRemake : JObj :=
  [ ("id", .str "m3"), ("title", .str "DUNE"), ("year", .num 2021),
    ("director", .str "D. Villeneuve"), ("duration", .num 155),
    ("poster", .str "http://x.com/d.jpg"), ("genre", .arr [.str "Sci-fi"]) ]

/-- The Dune payload with a rate. -/
def ratedBody : JObj :=
  [ ("title", .str "Dune"), ("year", .num 1984), ("director", .str "D. Lynch"),
    ("duration", .num 137), ("poster", .str "http://x.com/p.jpg"),
    ("genre", .arr [.str "Sci-fi"]), ("rate", .num 7) ]

/-- A payload with three offending fields: no `title`, a `year` below the range and a
negative `duration`. -/
def brokenBody : JObj :=
  [ ("year", .num 1800), ("director", .str "D. Lynch"), ("duration", .num (-5)),
    ("poster", .str "http://x.com/p.jpg"), ("genre", .arr [.str "Sci-fi"]) ]

/-! ## Reading objects after a write or a spread -/

/-- Reading after a write: the written property reads as the new value, any other as before. -/
theorem JObj.get?_set (o : JObj) (k k' : String) (v : Json) :
    JObj.get? (JObj.set o k v) k' = if k = k' then some v else JObj.get? o k' := by
  induction o with
  | nil => simp [JObj.set, JObj.get?]
  | cons kv rest ih =>
      obtain ⟨k0, v0⟩ := kv
      by_cases h0 : k0 = k
      · subst h0
        by_cases h1 : k0 = k' <;> simp [JObj.set, JObj.get?, h1]
      · by_cases h1 : k0 = k'
        · subst h1
          have h2 : ¬ k = k0 := fun h => h0 h.symm
          simp [JObj.set, JObj.get?, h0, h2]
        · simp [JObj.set, JObj.get?, h0, h1, ih]

/-- A name that no property carries reads as `undefined`. -/
theorem JObj.get?_eq_none_of_not_mem (o : JObj) (k : String)
    (h : ∀ kv ∈ o, kv.1 ≠ k) : JObj.get? o k = none := by
  induction o with
  | nil => rfl
  | cons kv rest ih =>
      obtain ⟨k0, v0⟩ := kv
      have h0 : k0 ≠ k := h (k0, v0) (List.mem_cons_self _ _)
      simp only [JObj.get?, if_neg h0]
      exact ih (fun kv hkv => h kv (List.mem_cons_of_mem _ hkv))

/-- A spread leaves alone every property that the source does not name. -/
theorem JObj.get?_spread_of_not_mem (target source : JObj) (k : String)
    (h : ∀ kv ∈ source, kv.1 ≠ k) :
    JObj.get? (JObj.spread target source) k = JObj.get? target k := by
  induction source generalizing target with
  | nil => rfl
  | cons kv rest ih =>
      have h0 : kv.1 ≠ k := h kv (List.mem_cons_self _ _)
      have hrest : ∀ kv' ∈ rest, kv'.1 ≠ k := fun kv' hkv => h kv' (List.mem_cons_of_mem _ hkv)
      show JObj.get? (JObj.spread (JObj.set target kv.1 kv.2) rest) k = _
      rw [ih _ hrest, JObj.get?_set, if_neg h0]

/-- Reading after a spread, for a source with distinct property names: the source wins
where it has the property, the target is kept where it has not. -/
theorem JObj.get?_spread (target source : JObj) (k : String)
    (hnodup : (source.map Prod.fst).Nodup) :
    JObj.get? (JObj.spread target source) k =
      (JObj.get? source k).or (JObj.get? target k) := by
  induction source generalizing target with
  | nil => simp [JObj.spread, JObj.get?]
  | cons kv rest ih =>
      obtain ⟨k0, v0⟩ := kv
      rw [List.map_cons, List.nodup_cons] at hnodup
      show JObj.get? (JObj.spread (JObj.set target k0 v0) rest) k = _
      rw [ih _ hnodup.2, JObj.get?_set]
      by_cases h0 : k0 = k
      · subst h0
        have hnone : JObj.get? rest k0 = none :=
          JObj.get?_eq_none_of_not_mem rest k0 (fun kv hkv heq =>
            hnodup.1 (List.mem_map.mpr ⟨kv, hkv, heq⟩))
        simp [JObj.get?, hnone]
      · simp [JObj.get?, h0]

/-! ## Issues and parsed values of the validation library -/

/-- An issue of a field of the shape is an issue of the object. -/
theorem ZodObject.mem_issues (pf : Platform) (shape : ZodObject) (props : JObj)
    (k : String) (t : ZodType) (i : ZodIssue) (hk : (k, t) ∈ shape)
    (hi : i ∈ (ZodType.parse pf t [PathSeg.key k] (JObj.get? props k)).1) :
    i ∈ ZodObject.issues pf shape props := by
  simp only [ZodObject.issues, ZodObject.parseFields, List.mem_flatMap, List.mem_map]
  exact ⟨_, ⟨(k, t), hk, rfl⟩, hi⟩

/-- Every issue of the object is an issue of some field of the shape. -/
theorem ZodObject.of_mem_issues (pf : Platform) (shape : ZodObject) (props : JObj)
    (i : ZodIssue) (hi : i ∈ ZodObject.issues pf shape props) :
    ∃ k t, (k, t) ∈ shape ∧ i ∈ (ZodType.parse pf t [PathSeg.key k] (JObj.get? props k)).1 := by
  simp only [ZodObject.issues, ZodObject.parseFields, List.mem_flatMap, List.mem_map] at hi
  obtain ⟨r, ⟨kt, hkt, rfl⟩, hi⟩ := hi
  exact ⟨kt.1, kt.2, hkt, hi⟩

/-- The object has no issue exactly when no field of the shape has one. -/
theorem ZodObject.issues_eq_nil_iff (pf : Platform) (shape : ZodObject) (props : JObj) :
    ZodObject.issues pf shape props = [] ↔
      ∀ k t, (k, t) ∈ shape → (ZodType.parse pf t [PathSeg.key k] (JObj.get? props k)).1 = [] := by
  constructor
  · intro h k t hk
    apply List.eq_nil_iff_forall_not_mem.mpr
    intro i hi
    have := ZodObject.mem_issues pf shape props k t i hk hi
    rw [h] at this
    exact absurd this (List.not_mem_nil _)
  · intro h
    apply List.eq_nil_iff_forall_not_mem.mpr
    intro i hi
    obtain ⟨k, t, hk, hi⟩ := ZodObject.of_mem_issues pf shape props i hi
    rw [h k t hk] at hi
    exact absurd hi (List.not_mem_nil _)

/-- A refinement raises its issue at the path of the number. -/
theorem NumCheck.issue?_path (c : NumCheck) (q : ℚ) (path : List PathSeg) (i : ZodIssue)
    (h : c.issue? q path = some i) : i.path = path := by
  cases c with
  | int =>
      simp only [NumCheck.issue?] at h
      split at h
      · exact absurd h (by simp)
      · simp only [Option.some.injEq] at h
        rw [← h]
  | min v inclusive =>
      cases inclusive <;> simp [NumCheck.issue?] at h <;> rw [← h.2]
  | max v inclusive =>
      cases inclusive <;> simp [NumCheck.issue?] at h <;> rw [← h.2]

/-- Issues of the elements of an array lie below the path of the array. -/
theorem ZodType.parse_array_path (pf : Platform) (element : ZodType) (path : List PathSeg)
    (ih : ∀ (p : List PathSeg) (input : Option Json), ∀ i ∈ (ZodType.parse pf element p input).1,
      p <+: i.path)
    (elems : List Json) (n : Nat) :
    ∀ i ∈ ((elems.enumFrom n).map (fun ix =>
        ZodType.parse pf element (path ++ [PathSeg.idx ix.1]) (some ix.2))).flatMap (fun r => r.1),
      path <+: i.path := by
  intro i hi
  simp only [List.mem_flatMap, List.mem_map] at hi
  obtain ⟨r, ⟨ix, _, rfl⟩, hi⟩ := hi
  exact List.IsPrefix.trans (List.prefix_append _ _) (ih _ _ i hi)

/-- Every issue of a parse lies at or below the path parsed. -/
theorem ZodType.parse_path (pf : Platform) (t : ZodType) :
    ∀ (path : List PathSeg) (input : Option Json), ∀ i ∈ (ZodType.parse pf t path input).1,
      path <+: i.path := by
  induction t with
  | string url =>
      intro path input i hi
      unfold ZodType.parse at hi
      split at hi
      · split at hi
        · simp only [List.mem_singleton] at hi
          subst hi
          exact List.prefix_refl _
        · exact absurd hi (List.not_mem_nil _)
      · simp only [List.mem_singleton] at hi
        subst hi
        exact List.prefix_refl _
  | number checks =>
      intro path input i hi
      unfold ZodType.parse at hi
      split at hi
      · rename_i q
        simp only [List.mem_filterMap] at hi
        obtain ⟨c, _, hc⟩ := hi
        rw [NumCheck.issue?_path c q path i hc]
      · simp only [List.mem_singleton] at hi
        subst hi
        exact List.prefix_refl _
  | enum options =>
      intro path input i hi
      unfold ZodType.parse at hi
      split at hi
      · split at hi
        · exact absurd hi (List.not_mem_nil _)
        · simp only [List.mem_singleton] at hi
          subst hi
          exact List.prefix_refl _
      · simp only [List.mem_singleton] at hi
        subst hi
        exact List.prefix_refl _
  | array element ih =>
      intro path input i hi
      unfold ZodType.parse at hi
      split at hi
      · exact ZodType.parse_array_path pf element path ih _ 0 i hi
      · simp only [List.mem_singleton] at hi
        subst hi
        exact List.prefix_refl _
  | optional inner ih =>
      intro path input i hi
      unfold ZodType.parse at hi
      split at hi
      · exact absurd hi (List.not_mem_nil _)
      · exact ih _ _ i hi

/-- An array whose elements raise no issue parses to its own elements. -/
theorem ZodType.parse_array_value (pf : Platform) (element : ZodType) (path : List PathSeg)
    (ih : ∀ (p : List PathSeg) (input : Option Json),
      (ZodType.parse pf element p input).1 = [] → (ZodType.parse pf element p input).2 = input)
    (elems : List Json) (n : Nat)
    (h : ((elems.enumFrom n).map (fun ix =>
        ZodType.parse pf element (path ++ [PathSeg.idx ix.1]) (some ix.2))).flatMap
          (fun r => r.1) = []) :
    ((elems.enumFrom n).map (fun ix =>
        ZodType.parse pf element (path ++ [PathSeg.idx ix.1]) (some ix.2))).all
          (fun r => r.2.isSome) = true ∧
    ((elems.enumFrom n).map (fun ix =>
        ZodType.parse pf element (path ++ [PathSeg.idx ix.1]) (some ix.2))).filterMap
          (fun r => r.2) = elems := by
  induction elems generalizing n with
  | nil => simp
  | cons x xs ihx =>
      simp only [List.enumFrom_cons, List.map_cons, List.flatMap_cons, List.append_eq_nil] at h
      have hx := ih _ _ h.1
      have hxs := ihx (n + 1) h.2
      simp only [List.enumFrom_cons, List.map_cons, List.all_cons, List.filterMap_cons, hx,
        Option.isSome_some, Bool.true_and, hxs.1, hxs.2, and_self]

/-- A parse without issue returns its input unchanged: no schema here transforms a value. -/
theorem ZodType.parse_value (pf : Platform) (t : ZodType) :
    ∀ (path : List PathSeg) (input : Option Json),
      (ZodType.parse pf t path input).1 = [] → (ZodType.parse pf t path input).2 = input := by
  induction t with
  | string url =>
      intro path input h
      unfold ZodType.parse at h ⊢
      split
      · rfl
      · simp at h
  | number checks =>
      intro path input h
      unfold ZodType.parse at h ⊢
      split
      · rfl
      · simp at h
  | enum options =>
      intro path input h
      unfold ZodType.parse at h ⊢
      split
      · split
        · rfl
        · rename_i hs
          simp [hs] at h
      · simp at h
  | array element ih =>
      intro path input h
      unfold ZodType.parse at h ⊢
      split
      · rename_i elems
        have hv := ZodType.parse_array_value pf element path ih elems 0 h
        simp only [List.enum] at hv ⊢
        simp only [hv.1, hv.2, if_true]
      · simp at h
  | optional inner ih =>
      intro path input h
      unfold ZodType.parse at h ⊢
      split
      · rfl
      · exact ih _ _ h

/-- The validated object has property names of the shape only. -/
theorem ZodObject.data_keys (pf : Platform) (shape : ZodObject) (props : JObj) :
    ∀ kv ∈ ZodObject.data pf shape props, kv.1 ∈ shape.map Prod.fst := by
  intro kv hkv
  simp only [ZodObject.data, ZodObject.parseFields, List.mem_filterMap, List.mem_map] at hkv
  obtain ⟨r, ⟨kt, hkt, rfl⟩, hv⟩ := hkv
  simp only [Option.map_eq_some'] at hv
  obtain ⟨v, _, rfl⟩ := hv
  exact List.mem_map.mpr ⟨kt, hkt, rfl⟩

/-- The validated object of a shape with distinct names has distinct names. -/
theorem ZodObject.data_nodup (pf : Platform) (shape : ZodObject) (props : JObj)
    (hnodup : (shape.map Prod.fst).Nodup) :
    ((ZodObject.data pf shape props).map Prod.fst).Nodup := by
  induction shape with
  | nil => simp [ZodObject.data, ZodObject.parseFields]
  | cons kt rest ih =>
      rw [List.map_cons, List.nodup_cons] at hnodup
      have hrest := ih hnodup.2
      simp only [ZodObject.data, ZodObject.parseFields, List.map_cons, List.filterMap_cons] at hrest ⊢
      split
      · exact hrest
      · rename_i kv hkv
        simp only [Option.map_eq_some'] at hkv
        obtain ⟨v, _, rfl⟩ := hkv
        rw [List.map_cons, List.nodup_cons]
        refine ⟨?_, hrest⟩
        intro hmem
        obtain ⟨kv, hkv, heq⟩ := List.mem_map.mp hmem
        have := ZodObject.data_keys pf rest props kv
          (by simpa only [ZodObject.data, ZodObject.parseFields] using hkv)
        rw [heq] at this
        exact hnodup.1 this

/-- A field of the validated object reads as the parsed value of that field. -/
theorem ZodObject.get?_data (pf : Platform) (shape : ZodObject) (props : JObj)
    (hnodup : (shape.map Prod.fst).Nodup) (k : String) (t : ZodType) (hk : (k, t) ∈ shape) :
    JObj.get? (ZodObject.data pf shape props) k =
      (ZodType.parse pf t [PathSeg.key k] (JObj.get? props k)).2 := by
  induction shape with
  | nil => exact absurd hk (List.not_mem_nil _)
  | cons kt rest ih =>
      rw [List.map_cons, List.nodup_cons] at hnodup
      have hdata : ZodObject.data pf (kt :: rest) props =
          match (ZodType.parse pf kt.2 [PathSeg.key kt.1] (JObj.get? props kt.1)).2 with
          | none => ZodObject.data pf rest props
          | some v => (kt.1, v) :: ZodObject.data pf rest props := by
        simp only [ZodObject.data, ZodObject.parseFields, List.map_cons, List.filterMap_cons]
        cases (ZodType.parse pf kt.2 [PathSeg.key kt.1] (JObj.get? props kt.1)).2 <;> rfl
      rw [hdata]
      rcases List.mem_cons.mp hk with heq | hmem
      · subst heq
        have hnone : JObj.get? (ZodObject.data pf rest props) k = none :=
          JObj.get?_eq_none_of_not_mem _ _ (fun kv hkv heq =>
            hnodup.1 (heq ▸ ZodObject.data_keys pf rest props kv hkv))
        cases hv : (ZodType.parse pf t [PathSeg.key k] (JObj.get? props k)).2 with
        | none => simpa only [hv] using hnone
        | some v => simp [hv, JObj.get?]
      · have hne : kt.1 ≠ k := fun heq =>
          hnodup.1 (heq ▸ List.mem_map.mpr ⟨(k, t), hmem, rfl⟩)
        cases hv : (ZodType.parse pf kt.2 [PathSeg.key kt.1] (JObj.get? props kt.1)).2 with
        | none => simpa only [hv] using ih hnodup.2 hmem
        | some v => simpa [hv, JObj.get?, hne] using ih hnodup.2 hmem

/-! ## Identifiers: create and partial update -/

/-- Strict equality with a text holds exactly for that text. -/
theorem strictEqStr_iff (v : Option Json) (s : String) :
    strictEqStr v s = true ↔ v = some (Json.str s) := by
  unfold strictEqStr
  split
  · simp
  · rename_i h
    constructor
    · intro hf
      exact absurd hf (by simp)
    · intro hv
      exact absurd hv (h s)

/-- The index that `findIndex` returns is that of the record that `find` returns. -/
theorem findIdx?_of_find? (movies : Store) (p : JObj → Bool) (R : JObj)
    (h : movies.find? p = some R) :
    ∃ i, movies.findIdx? p = some i ∧ movies.getD i [] = R := by
  induction movies with
  | nil => simp at h
  | cons m rest ih =>
      rw [List.find?_cons] at h
      rw [List.findIdx?_cons]
      cases hp : p m with
      | true =>
          rw [hp] at h
          simp only [Option.some.injEq] at h
          exact ⟨0, by simp, by simp [h]⟩
      | false =>
          rw [hp] at h
          obtain ⟨i, hi, hget⟩ := ih h
          refine ⟨i + 1, ?_, by simpa using hget⟩
          rw [List.findIdx?_succ, hi]
          simp

/-- A successful `safeParse`: the input is an object without issues, and the data is its
validated object. -/
theorem ZodObject.safeParse_success (pf : Platform) (shape : ZodObject) (input : Json)
    (data : JObj) (h : ZodObject.safeParse pf shape input = .success data) :
    ∃ props, input = .obj props ∧ ZodObject.issues pf shape props = [] ∧
      data = ZodObject.data pf shape props := by
  unfold ZodObject.safeParse at h
  split at h
  · rename_i props
    split at h
    · rename_i hnil
      simp only [SafeParseResult.success.injEq] at h
      exact ⟨props, rfl, hnil, h.symm⟩
    · simp at h
  · simp at h

/-- The PATCH handler on a record found and a valid body: 201 with the merged record. -/
theorem patchMovie_found (pf : Platform) (movies : Store) (id : String) (R : JObj)
    (body : Json) (data : JObj)
    (hR : movies.find? (hasId id) = some R)
    (hvalid : verifyMoviePartial pf body = .success data) :
    patchMovie pf movies id body = (movies, ⟨201, .movie (JObj.spread R data)⟩) := by
  obtain ⟨i, hi, hget⟩ := findIdx?_of_find? movies (hasId id) R hR
  simp only [patchMovie, hi, hvalid, hget]

/-- The field names of `movieSchema` are distinct. -/
theorem movieSchema_keys_nodup : (movieSchema.map Prod.fst).Nodup := by decide

/-- The partial schema has the field names of the schema. -/
theorem toPartial_keys (shape : ZodObject) :
    (ZodObject.toPartial shape).map Prod.fst = shape.map Prod.fst := by
  simp [ZodObject.toPartial, Function.comp_def]

/-- C2. A partial update never overwrites `id`: when the PATCH handler addresses the stored
record `R` and the body passes `verifyMoviePartial`, the record it produces is `R` merged
with the validated data, and its `id` is that of `R`, which is the `id` of the request. -/
theorem patch_never_overwrites_id (pf : Platform) (movies : Store) (id : String) (R : JObj)
    (body : Json) (data : JObj)
    (hR : movies.find? (hasId id) = some R)
    (hvalid : verifyMoviePartial pf body = .success data) :
    patchMovie pf movies id body = (movies, ⟨201, .movie (JObj.spread R data)⟩) ∧
    JObj.get? (JObj.spread R data) "id" = JObj.get? R "id" ∧
    JObj.get? R "id" = some (Json.str id) := by
  refine ⟨patchMovie_found pf movies id R body data hR hvalid, ?_, ?_⟩
  · obtain ⟨props, _, _, hdata⟩ := ZodObject.safeParse_success pf _ body data hvalid
    apply JObj.get?_spread_of_not_mem
    intro kv hkv heq
    have hmem := ZodObject.data_keys pf (ZodObject.toPartial movieSchema) props kv (hdata ▸ hkv)
    rw [toPartial_keys, heq] at hmem
    revert hmem
    decide
  · have hp := List.find?_some hR
    exact (strictEqStr_iff _ _).mp hp

/-- Witness for C2: patching the stored Dune record with a body that only carries
`id: "attacker-id"` leaves its `id` at `m1`. -/
theorem patch_never_overwrites_id_witness :
    patchMovie samplePlatform [storedDune] "m1" (.obj [("id", .str "attacker-id")]) =
      ([storedDune], ⟨201, .movie (JObj.spread storedDune [])⟩) ∧
    JObj.get? (JObj.spread storedDune []) "id" = JObj.get? storedDune "id" ∧
    JObj.get? storedDune "id" = some (Json.str "m1") :=
  patch_never_overwrites_id samplePlatform [storedDune] "m1" storedDune
    (.obj [("id", .str "attacker-id")]) [] (by rfl) (by rfl)

/-- C1. The create handler takes `id` from the body: on the valid Dune payload carrying
`id: "attacker-id"`, with `generated-uuid` drawn, the body passes `verifyMovie` and the
record stored and returned has `id` equal to `attacker-id`, not to the identifier drawn. -/
theorem post_takes_id_from_body :
    verifyMovie samplePlatform (.obj (("id", .str "attacker-id") :: duneBody)) =
      .success duneBody ∧
    postMovies samplePlatform "generated-uuid" [] (.obj (("id", .str "attacker-id") :: duneBody)) =
      ([("id", .str "attacker-id") :: duneBody],
        ⟨201, .movie (("id", .str "attacker-id") :: duneBody)⟩) ∧
    JObj.get? (("id", .str "attacker-id") :: duneBody) "id" ≠ some (Json.str "generated-uuid") := by
  refine ⟨by rfl, by rfl, ?_⟩
  simp [JObj.get?]

/-- C3. The partial-update handler does not persist: it returns the store it was given,
whatever the request; so after patching the stored Dune record with a new title, which
answers 201 with the merged record, get-by-id still returns the original record. -/
theorem patch_does_not_persist :
    (∀ (pf : Platform) (movies : Store) (id : String) (body : Json),
      (patchMovie pf movies id body).1 = movies) ∧
    patchMovie samplePlatform [storedDune] "m1" (.obj [("title", .str "Dune: Part Two")]) =
      ([storedDune], ⟨201, .movie (("id", .str "m1") :: ("title", .str "Dune: Part Two") ::
        duneBody.tail)⟩) ∧
    getMovieById
      (patchMovie samplePlatform [storedDune] "m1" (.obj [("title", .str "Dune: Part Two")])).1
      "m1" = ⟨200, .movie storedDune⟩ ∧
    JObj.get? storedDune "title" = some (Json.str "Dune") := by
  refine ⟨?_, by rfl, by rfl, by rfl⟩
  intro pf movies id body
  unfold patchMovie
  cases movies.findIdx? (hasId id) with
  | none => rfl
  | some i => cases verifyMoviePartial pf body <;> rfl

/-- C4. Not-found comes before validation on partial update: when no record of the store
has the requested id, the PATCH handler answers 404 with `Movie not found` and leaves the
store as it was, for every body, valid or not. -/
theorem patch_not_found_first (pf : Platform) (movies : Store) (id : String) (body : Json)
    (hno : ∀ m ∈ movies, JObj.get? m "id" ≠ some (Json.str id)) :
    patchMovie pf movies id body = (movies, ⟨404, .message "Movie not found"⟩) := by
  have hnone : movies.findIdx? (hasId id) = none := by
    rw [List.findIdx?_eq_none_iff]
    intro m hm
    have := hno m hm
    cases hp : hasId id m with
    | false => rfl
    | true => exact absurd ((strictEqStr_iff _ _).mp hp) this
  simp only [patchMovie, hnone]

/-- Witness for C4: patching the absent id `m2` with a body whose `year` is a text answers
not-found, not a validation error. -/
theorem patch_not_found_first_witness :
    patchMovie samplePlatform [storedDune] "m2" (.obj [("year", .str "soon")]) =
      ([storedDune], ⟨404, .message "Movie not found"⟩) :=
  patch_not_found_first samplePlatform [storedDune] "m2" (.obj [("year", .str "soon")])
    (by simp [storedDune, JObj.get?])

/-! ## Merging and field constraints -/

/-- An object with an issue fails `safeParse` with all its issues. -/
theorem ZodObject.safeParse_failure (pf : Platform) (shape : ZodObject) (props : JObj)
    (i : ZodIssue) (hi : i ∈ ZodObject.issues pf shape props) :
    ZodObject.safeParse pf shape (.obj props) = .failure (ZodObject.issues pf shape props) := by
  unfold ZodObject.safeParse
  simp only
  split
  · rename_i hnil
    rw [hnil] at hi
    exact absurd hi (List.not_mem_nil _)
  · rename_i hcons
    rw [hcons]

/-- An object without issue passes `safeParse` with its validated object. -/
theorem ZodObject.safeParse_of_issues_nil (pf : Platform) (shape : ZodObject) (props : JObj)
    (h : ZodObject.issues pf shape props = []) :
    ZodObject.safeParse pf shape (.obj props) = .success (ZodObject.data pf shape props) := by
  unfold ZodObject.safeParse
  simp only [h]

/-- A value with a property is an object. -/
theorem Json.eq_obj_of_get? (body : Json) (k : String) (v : Json)
    (h : body.get? k = some v) : ∃ props, body = .obj props ∧ JObj.get? props k = some v := by
  cases body with
  | obj props => exact ⟨props, rfl, h⟩
  | _ => simp [Json.get?] at h

/-- C5. Partial-update merge: when the PATCH handler addresses the stored record `R` and
the body passes `verifyMoviePartial`, the record returned has, for each schema field, the
value of the body when the body contains the field and the value of `R` (or none, when `R`
has none) when it does not. -/
theorem patch_merges_fields (pf : Platform) (movies : Store) (id : String) (R : JObj)
    (body : Json) (data : JObj)
    (hR : movies.find? (hasId id) = some R)
    (hvalid : verifyMoviePartial pf body = .success data)
    (f : String)
    (hf : f ∈ ["title", "year", "director", "duration", "poster", "genre", "rate"]) :
    patchMovie pf movies id body = (movies, ⟨201, .movie (JObj.spread R data)⟩) ∧
    (∀ v, body.get? f = some v → JObj.get? (JObj.spread R data) f = some v) ∧
    (body.get? f = none → JObj.get? (JObj.spread R data) f = JObj.get? R f) := by
  refine ⟨patchMovie_found pf movies id R body data hR hvalid, ?_⟩
  obtain ⟨props, hbody, hnil, hdata⟩ := ZodObject.safeParse_success pf _ body data hvalid
  have hnodup : ((ZodObject.toPartial movieSchema).map Prod.fst).Nodup := by
    rw [toPartial_keys]
    exact movieSchema_keys_nodup
  have hkeys : f ∈ (ZodObject.toPartial movieSchema).map Prod.fst := by
    rw [toPartial_keys]
    exact hf
  obtain ⟨kt, hkt, hfst⟩ := List.mem_map.mp hkeys
  obtain ⟨k, t⟩ := kt
  simp only at hfst
  subst hfst
  have hfield : JObj.get? data k = JObj.get? props k := by
    rw [hdata, ZodObject.get?_data pf _ props hnodup k t hkt]
    exact ZodType.parse_value pf t _ _ ((ZodObject.issues_eq_nil_iff pf _ props).mp hnil k t hkt)
  have hspread : JObj.get? (JObj.spread R data) k = (JObj.get? props k).or (JObj.get? R k) := by
    rw [JObj.get?_spread R data k (hdata ▸ ZodObject.data_nodup pf _ props hnodup), hfield]
  subst hbody
  simp only [Json.get?]
  constructor
  · intro v hv
    rw [hspread, hv]
    rfl
  · intro hnone
    rw [hspread, hnone]
    rfl

/-- Witness for C5: patching the stored Dune record with a new title and a rate; the field
looked at is `title`. -/
theorem patch_merges_fields_witness :
    patchMovie samplePlatform [storedDune] "m1"
        (.obj [("title", .str "Dune: Part Two"), ("rate", .num 8)]) =
      ([storedDune], ⟨201, .movie (JObj.spread storedDune
        [("title", .str "Dune: Part Two"), ("rate", .num 8)])⟩) ∧
    (∀ v, (Json.obj [("title", .str "Dune: Part Two"), ("rate", .num 8)]).get? "title" = some v →
      JObj.get? (JObj.spread storedDune [("title", .str "Dune: Part Two"), ("rate", .num 8)])
        "title" = some v) ∧
    ((Json.obj [("title", .str "Dune: Part Two"), ("rate", .num 8)]).get? "title" = none →
      JObj.get? (JObj.spread storedDune [("title", .str "Dune: Part Two"), ("rate", .num 8)])
        "title" = JObj.get? storedDune "title") :=
  patch_merges_fields samplePlatform [storedDune] "m1" storedDune
    (.obj [("title", .str "Dune: Part Two"), ("rate", .num 8)])
    [("title", .str "Dune: Part Two"), ("rate", .num 8)] (by rfl) (by rfl) "title" (by decide)

/-- C6. Year bounds: a payload whose `year` is a number outside [1950, 2025] fails
`verifyMovie` with a violation whose path is `year`, whatever its other fields; and the
POST handler answers 422 with those violations and leaves the store as it was. -/
theorem year_out_of_range_rejected (pf : Platform) (body : Json) (q : ℚ)
    (hyear : body.get? "year" = some (Json.num q)) (hout : q < 1950 ∨ 2025 < q) :
    ∃ issues, verifyMovie pf body = .failure issues ∧
      (∃ i ∈ issues, i.path = [PathSeg.key "year"]) ∧
      ∀ (uuid : String) (movies : Store),
        postMovies pf uuid movies body = (movies, ⟨422, .error issues⟩) := by
  obtain ⟨props, hbody, hget⟩ := Json.eq_obj_of_get? body "year" _ hyear
  subst hbody
  have hmem : ∃ i ∈ ZodObject.issues pf movieSchema props, i.path = [PathSeg.key "year"] := by
    rcases hout with hlow | hhigh
    · refine ⟨⟨"too_small", [PathSeg.key "year"]⟩, ?_, rfl⟩
      apply ZodObject.mem_issues pf movieSchema props "year"
        (.number [.int, .min 1950 true, .max 2025 true])
      · simp [movieSchema]
      · simp [hget, ZodType.parse, NumCheck.issue?, hlow]
    · refine ⟨⟨"too_big", [PathSeg.key "year"]⟩, ?_, rfl⟩
      apply ZodObject.mem_issues pf movieSchema props "year"
        (.number [.int, .min 1950 true, .max 2025 true])
      · simp [movieSchema]
      · simp [hget, ZodType.parse, NumCheck.issue?, hhigh]
  obtain ⟨i, hi, hpath⟩ := hmem
  have hfail : verifyMovie pf (.obj props) = .failure (ZodObject.issues pf movieSchema props) :=
    ZodObject.safeParse_failure pf movieSchema props i hi
  refine ⟨_, hfail, ⟨i, hi, hpath⟩, ?_⟩
  intro uuid movies
  simp only [postMovies, hfail]

/-- Witness for C6: the Dune payload with `year: 1800`. -/
theorem year_out_of_range_rejected_witness :
    ∃ issues,
      verifyMovie samplePlatform (.obj (("year", .num 1800) :: duneBody)) = .failure issues ∧
      (∃ i ∈ issues, i.path = [PathSeg.key "year"]) ∧
      ∀ (uuid : String) (movies : Store),
        postMovies samplePlatform uuid movies (.obj (("year", .num 1800) :: duneBody)) =
          (movies, ⟨422, .error issues⟩) :=
  year_out_of_range_rejected samplePlatform (.obj (("year", .num 1800) :: duneBody)) 1800
    (by rfl) (by norm_num)

/-- The violation list of `safeParse` on an object is the list of its issues. -/
theorem ZodObject.violations_safeParse (pf : Platform) (shape : ZodObject) (props : JObj) :
    (ZodObject.safeParse pf shape (.obj props)).violations = ZodObject.issues pf shape props := by
  unfold ZodObject.safeParse
  simp only
  split
  · rename_i hnil
    rw [hnil]
    rfl
  · rename_i hcons
    rw [hcons]
    rfl

/-- An issue that cites a field was raised by the parse of that field. -/
theorem ZodObject.field_of_cites (pf : Platform) (shape : ZodObject) (props : JObj)
    (i : ZodIssue) (field : String) (hi : i ∈ ZodObject.issues pf shape props)
    (hc : i.cites field) :
    ∃ t, (field, t) ∈ shape ∧
      i ∈ (ZodType.parse pf t [PathSeg.key field] (JObj.get? props field)).1 := by
  obtain ⟨k, t, hk, hik⟩ := ZodObject.of_mem_issues pf shape props i hi
  obtain ⟨rest, hrest⟩ := ZodType.parse_path pf t _ _ i hik
  unfold ZodIssue.cites at hc
  rw [← hrest] at hc
  simp only [List.singleton_append, List.head?_cons, Option.some.injEq, PathSeg.key.injEq] at hc
  subst hc
  exact ⟨t, hk, hik⟩

/-- The schema of `genre` in `movieSchema`. -/
theorem movieSchema_genre (t : ZodType) (h : ("genre", t) ∈ movieSchema) :
    t = .array (.enum genreLabels) := by
  simp [movieSchema] at h
  exact h

/-- The schema of `genre` in the partial schema. -/
theorem movieSchema_partial_genre (t : ZodType)
    (h : ("genre", t) ∈ ZodObject.toPartial movieSchema) :
    t = .optional (.array (.enum genreLabels)) := by
  simp [ZodObject.toPartial, movieSchema] at h
  exact h

/-- The POST handler on a valid body: the new record is appended and returned with 201. -/
theorem postMovies_success (pf : Platform) (uuid : String) (movies : Store) (body : Json)
    (data : JObj) (h : verifyMovie pf body = .success data) :
    postMovies pf uuid movies body =
      (movies ++ [JObj.spread [("id", Json.str uuid)] body.ownProps],
        ⟨201, .movie (JObj.spread [("id", Json.str uuid)] body.ownProps)⟩) := by
  simp only [postMovies, h]

/-- C7, as stated, fails: the Dune payload with an empty `genre` passes `verifyMovie`, the
body holding only an empty `genre` passes `verifyMoviePartial`, and the POST handler
creates a record whose `genre` is empty. -/
theorem empty_genre_accepted :
    verifyMovie samplePlatform (.obj emptyGenreBody) = .success emptyGenreBody ∧
    verifyMoviePartial samplePlatform (.obj [("genre", .arr [])]) =
      .success [("genre", .arr [])] ∧
    postMovies samplePlatform "generated-uuid" [] (.obj emptyGenreBody) =
      ([("id", .str "generated-uuid") :: emptyGenreBody],
        ⟨201, .movie (("id", .str "generated-uuid") :: emptyGenreBody)⟩) ∧
    JObj.get? (("id", .str "generated-uuid") :: emptyGenreBody) "genre" = some (.arr []) :=
  ⟨by rfl, by rfl, by rfl, by rfl⟩

/-- C7, amended. An empty `genre` sequence is not a violation: for a payload whose `genre`
is the empty sequence, no violation of `verifyMovie` or of `verifyMoviePartial` cites
`genre`; when its other fields raise no issue, `verifyMovie` succeeds and the POST handler
appends and returns the record built from the body, whose `genre` (the property names of
the body being distinct) is the empty sequence. -/
theorem empty_genre_not_a_violation (pf : Platform) (body : Json)
    (hgenre : body.get? "genre" = some (Json.arr [])) :
    (∀ i ∈ (verifyMovie pf body).violations, ¬ i.cites "genre") ∧
    (∀ i ∈ (verifyMoviePartial pf body).violations, ¬ i.cites "genre") ∧
    ((∀ k t, (k, t) ∈ movieSchema → k ≠ "genre" →
        (ZodType.parse pf t [PathSeg.key k] (body.get? k)).1 = []) →
      (verifyMovie pf body).violations = [] ∧
      ∀ (uuid : String) (movies : Store),
        postMovies pf uuid movies body =
          (movies ++ [JObj.spread [("id", Json.str uuid)] body.ownProps],
            ⟨201, .movie (JObj.spread [("id", Json.str uuid)] body.ownProps)⟩) ∧
        ((body.ownProps.map Prod.fst).Nodup →
          JObj.get? (JObj.spread [("id", Json.str uuid)] body.ownProps) "genre" =
            some (Json.arr []))) := by
  obtain ⟨props, hbody, hget⟩ := Json.eq_obj_of_get? body "genre" _ hgenre
  subst hbody
  refine ⟨?_, ?_, ?_⟩
  · intro i hi hc
    rw [verifyMovie, ZodObject.violations_safeParse] at hi
    obtain ⟨t, ht, hit⟩ := ZodObject.field_of_cites pf _ props i "genre" hi hc
    rw [movieSchema_genre t ht, hget] at hit
    simp [ZodType.parse] at hit
  · intro i hi hc
    rw [verifyMoviePartial, ZodObject.violations_safeParse] at hi
    obtain ⟨t, ht, hit⟩ := ZodObject.field_of_cites pf _ props i "genre" hi hc
    rw [movieSchema_partial_genre t ht, hget] at hit
    simp [ZodType.parse] at hit
  · intro hothers
    have hnil : ZodObject.issues pf movieSchema props = [] := by
      rw [ZodObject.issues_eq_nil_iff]
      intro k t hk
      by_cases hkg : k = "genre"
      · subst hkg
        rw [movieSchema_genre t hk, hget]
        simp [ZodType.parse]
      · exact hothers k t hk hkg
    have hok := ZodObject.safeParse_of_issues_nil pf movieSchema props hnil
    refine ⟨?_, ?_⟩
    · rw [verifyMovie, hok]
      rfl
    · intro uuid movies
      refine ⟨postMovies_success pf uuid movies _ _ hok, ?_⟩
      intro hnodup
      simp only [Json.ownProps] at hnodup ⊢
      rw [JObj.get?_spread _ props "genre" hnodup, hget]
      rfl

/-- Witness for the amended C7: the Dune payload with an empty `genre`. Its other fields
raise no issue, so it is accepted and the record created has an empty `genre`. -/
theorem empty_genre_not_a_violation_witness :
    (∀ i ∈ (verifyMovie samplePlatform (.obj emptyGenreBody)).violations, ¬ i.cites "genre") ∧
    (verifyMovie samplePlatform (.obj emptyGenreBody)).violations = [] ∧
    JObj.get? (JObj.spread [("id", Json.str "generated-uuid")]
      (Json.obj emptyGenreBody).ownProps) "genre" = some (Json.arr []) := by
  have h := empty_genre_not_a_violation samplePlatform (.obj emptyGenreBody) (by rfl)
  have hothers : ∀ k t, (k, t) ∈ movieSchema → k ≠ "genre" →
      (ZodType.parse samplePlatform t [PathSeg.key k]
        ((Json.obj emptyGenreBody).get? k)).1 = [] := by
    intro k t hk hne
    simp only [movieSchema, List.mem_cons, Prod.mk.injEq, List.mem_singleton,
      List.not_mem_nil, or_false] at hk
    rcases hk with ⟨rfl, rfl⟩ | ⟨rfl, rfl⟩ | ⟨rfl, rfl⟩ | ⟨rfl, rfl⟩ | ⟨rfl, rfl⟩ |
      ⟨rfl, rfl⟩ | ⟨rfl, rfl⟩
    · rfl
    · rfl
    · rfl
    · rfl
    · rfl
    · exact absurd rfl hne
    · rfl
  exact ⟨h.1, (h.2.2 hothers).1,
    ((h.2.2 hothers).2 "generated-uuid" []).2 (by decide)⟩

/-- The schema of `title` and of `director` in `movieSchema`: a plain text. -/
theorem movieSchema_text (f : String) (hf : f = "title" ∨ f = "director") (t : ZodType)
    (h : (f, t) ∈ movieSchema) : t = .string false := by
  rcases hf with rfl | rfl <;> simp [movieSchema] at h <;> exact h

/-- Both `title` and `director` are fields of `movieSchema`. -/
theorem movieSchema_text_mem (f : String) (hf : f = "title" ∨ f = "director") :
    (f, ZodType.string false) ∈ movieSchema := by
  rcases hf with rfl | rfl <;> simp [movieSchema]

/-- C8, as stated, fails: the Dune payload with an empty `title` and an empty `director`
passes `verifyMovie`, and the POST handler creates the record. -/
theorem empty_title_director_accepted :
    verifyMovie samplePlatform (.obj untitledBody) = .success untitledBody ∧
    postMovies samplePlatform "generated-uuid" [] (.obj untitledBody) =
      ([("id", .str "generated-uuid") :: untitledBody],
        ⟨201, .movie (("id", .str "generated-uuid") :: untitledBody)⟩) ∧
    JObj.get? untitledBody "title" = some (.str "") ∧
    JObj.get? untitledBody "director" = some (.str "") :=
  ⟨by rfl, by rfl, by rfl, by rfl⟩

/-- C8, amended. An empty `title` or `director` is not a violation: for a payload object
and either of the two fields, when the field is a text, the empty string included, no
violation of `verifyMovie` cites it, whatever the other fields are, and `verifyMovie`
succeeds when the other fields raise no issue; when the field is absent or not a text,
`verifyMovie` fails with an `invalid_type` violation at that field. -/
theorem text_title_director_not_a_violation (pf : Platform) (props : JObj) (f : String)
    (hf : f = "title" ∨ f = "director") :
    (∀ s, JObj.get? props f = some (Json.str s) →
      (∀ i ∈ (verifyMovie pf (.obj props)).violations, ¬ i.cites f) ∧
      ((∀ k t, (k, t) ∈ movieSchema → k ≠ f →
          (ZodType.parse pf t [PathSeg.key k] (JObj.get? props k)).1 = []) →
        (verifyMovie pf (.obj props)).violations = [])) ∧
    ((∀ s, JObj.get? props f ≠ some (Json.str s)) →
      (⟨"invalid_type", [PathSeg.key f]⟩ : ZodIssue) ∈ (verifyMovie pf (.obj props)).violations) := by
  constructor
  · intro s hs
    have hfield : ∀ t, (f, t) ∈ movieSchema →
        (ZodType.parse pf t [PathSeg.key f] (JObj.get? props f)).1 = [] := by
      intro t ht
      rw [movieSchema_text f hf t ht, hs]
      simp [ZodType.parse]
    constructor
    · intro i hi hc
      rw [verifyMovie, ZodObject.violations_safeParse] at hi
      obtain ⟨t, ht, hit⟩ := ZodObject.field_of_cites pf _ props i f hi hc
      rw [hfield t ht] at hit
      exact absurd hit (List.not_mem_nil _)
    · intro hothers
      rw [verifyMovie, ZodObject.violations_safeParse, ZodObject.issues_eq_nil_iff]
      intro k t hk
      by_cases hkf : k = f
      · subst hkf
        exact hfield t hk
      · exact hothers k t hk hkf
  · intro hnot
    rw [verifyMovie, ZodObject.violations_safeParse]
    apply ZodObject.mem_issues pf movieSchema props f (.string false) _
      (movieSchema_text_mem f hf)
    unfold ZodType.parse
    split
    · rename_i s hs
      exact absurd hs (hnot s)
    · exact List.mem_singleton.mpr rfl

/-- Witness for the amended C8: the Dune payload with an empty `title` and an empty
`director`, at the field `title`; and the same payload without its title. -/
theorem text_title_director_not_a_violation_witness :
    ((∀ i ∈ (verifyMovie samplePlatform (.obj untitledBody)).violations, ¬ i.cites "title") ∧
      (verifyMovie samplePlatform (.obj untitledBody)).violations = []) ∧
    (⟨"invalid_type", [PathSeg.key "title"]⟩ : ZodIssue) ∈
      (verifyMovie samplePlatform (.obj untitledBody.tail)).violations := by
  have hothers : ∀ k t, (k, t) ∈ movieSchema → k ≠ "title" →
      (ZodType.parse samplePlatform t [PathSeg.key k] (JObj.get? untitledBody k)).1 = [] := by
    intro k t hk hne
    simp only [movieSchema, List.mem_cons, Prod.mk.injEq, List.mem_singleton,
      List.not_mem_nil, or_false] at hk
    rcases hk with ⟨rfl, rfl⟩ | ⟨rfl, rfl⟩ | ⟨rfl, rfl⟩ | ⟨rfl, rfl⟩ | ⟨rfl, rfl⟩ |
      ⟨rfl, rfl⟩ | ⟨rfl, rfl⟩
    · exact absurd rfl hne
    · rfl
    · rfl
    · rfl
    · rfl
    · rfl
    · rfl
  have h := (text_title_director_not_a_violation samplePlatform untitledBody "title"
    (Or.inl rfl)).1 "" (by rfl)
  exact ⟨⟨h.1, h.2 hothers⟩,
    (text_title_director_not_a_violation samplePlatform untitledBody.tail "title"
      (Or.inl rfl)).2 (by simp [untitledBody, JObj.get?])⟩

/-! ## Listing and filtering -/

/-- C9, as stated, fails at the empty text: with `genre` given as the empty text the handler
does not return the genre-filtered sequence for it (which is empty): it runs the title
search when `search` is given, and returns the full list when it is not. -/
theorem empty_genre_param_not_filtered :
    filterByGenre samplePlatform "" [storedDune] = some [] ∧
    getMovies samplePlatform [storedDune] (some "") (some "dune") =
      some ⟨200, .movie storedDune⟩ ∧
    getMovies samplePlatform [storedDune] (some "") none =
      some ⟨200, .movies [storedDune]⟩ ∧
    getMovies samplePlatform [storedDune] (some "") none ≠
      (filterByGenre samplePlatform "" [storedDune]).map
        (fun filtered => ⟨200, .movies filtered⟩) := by
  refine ⟨by rfl, by rfl, by rfl, ?_⟩
  show some (Response.mk 200 (.movies [storedDune])) ≠ some (Response.mk 200 (.movies []))
  simp

/-- C9, amended. Genre takes precedence when it is a non-empty text: then the handler
returns exactly the genre-filtered sequence for it, whether or not `search` is given; when
`genre` is absent or the empty text and `search` is a non-empty text it returns the result
of the title search; when each of the two is absent or the empty text it returns the full
list. -/
theorem genre_takes_precedence (pf : Platform) (movies : Store) (genre search : Option String) :
    (∀ g, genre = some g → g ≠ "" →
      getMovies pf movies genre search =
        (filterByGenre pf g movies).map (fun filtered => ⟨200, .movies filtered⟩)) ∧
    (genre = none ∨ genre = some "" → ∀ s, search = some s → s ≠ "" →
      getMovies pf movies genre search =
        (findByTitle pf s movies).map (fun found =>
          match found with
          | some movie => ⟨200, .movie movie⟩
          | none => ⟨200, .nothing⟩)) ∧
    (genre = none ∨ genre = some "" → search = none ∨ search = some "" →
      getMovies pf movies genre search = some ⟨200, .movies movies⟩) := by
  have hfalsy : ∀ p : Option String, p = none ∨ p = some "" → truthy p = false := by
    intro p hp
    rcases hp with rfl | rfl <;> simp [truthy]
  refine ⟨?_, ?_, ?_⟩
  · intro g hg hne
    subst hg
    simp [getMovies, truthy, hne]
  · intro hgenre s hs hne
    subst hs
    have hs : truthy (some s) = true := by simp [truthy, hne]
    simp only [getMovies, hfalsy genre hgenre, hs, Option.getD_some, if_true]
    rfl
  · intro hgenre hsearch
    simp [getMovies, hfalsy genre hgenre, hfalsy search hsearch]

/-- Witness for the amended C9: `genre=action` together with `search=dune` returns the
genre-filtered sequence; `search=dune` alone returns the search result; neither returns
the full list. -/
theorem genre_takes_precedence_witness :
    getMovies samplePlatform [storedDune, storedAction] (some "action") (some "dune") =
      (filterByGenre samplePlatform "action" [storedDune, storedAction]).map
        (fun filtered => ⟨200, .movies filtered⟩) ∧
    getMovies samplePlatform [storedDune, storedAction] none (some "dune") =
      (findByTitle samplePlatform "dune" [storedDune, storedAction]).map (fun found =>
        match found with
        | some movie => ⟨200, .movie movie⟩
        | none => ⟨200, .nothing⟩) ∧
    getMovies samplePlatform [storedDune, storedAction] none none =
      some ⟨200, .movies [storedDune, storedAction]⟩ :=
  ⟨(genre_takes_precedence samplePlatform [storedDune, storedAction] (some "action")
      (some "dune")).1 "action" rfl (by decide),
    (genre_takes_precedence samplePlatform [storedDune, storedAction] none
      (some "dune")).2.1 (Or.inl rfl) "dune" rfl (by decide),
    (genre_takes_precedence samplePlatform [storedDune, storedAction] none
      none).2.2 (Or.inl rfl) (Or.inl rfl)⟩

/-- On an array of texts the callback under `some` never throws: it is `any`. -/
theorem someGenre_texts (pf : Platform) (genre : String) (labels : List String) :
    someGenre pf genre (labels.map Json.str) =
      some (labels.any (fun gen => decide (pf.toLowerCase gen = pf.toLowerCase genre))) := by
  induction labels with
  | nil => rfl
  | cons l rest ih =>
      simp only [List.map_cons, someGenre, List.any_cons]
      by_cases h : pf.toLowerCase l = pf.toLowerCase genre
      · simp [h]
      · simp [h, ih]

/-- The genre texts of a record whose `genre` is an array of texts are those texts. -/
theorem genreTexts_of_texts (movie : JObj) (labels : List String)
    (h : JObj.get? movie "genre" = some (Json.arr (labels.map Json.str))) :
    genreTexts movie = labels := by
  have hmap : ∀ ls : List String, (ls.map Json.str).filterMap (fun gen =>
      match gen with
      | .str s => some s
      | _ => none) = ls := by
    intro ls
    induction ls with
    | nil => rfl
    | cons l rest ih => simp only [List.map_cons, List.filterMap_cons, ih]
  simp only [genreTexts, h]
  exact hmap labels

/-- On records whose `genre` is an array of texts the genre filter is a plain filter. -/
theorem filterByGenre_eq_filter (pf : Platform) (genre : String) (movies : Store)
    (hwf : ∀ m ∈ movies, ∃ labels : List String,
      JObj.get? m "genre" = some (Json.arr (labels.map Json.str))) :
    filterByGenre pf genre movies =
      some (movies.filter (fun m => (genreTexts m).any
        (fun gen => decide (pf.toLowerCase gen = pf.toLowerCase genre)))) := by
  induction movies with
  | nil => rfl
  | cons m rest ih =>
      obtain ⟨labels, hlabels⟩ := hwf m (List.mem_cons_self _ _)
      have hrest := ih (fun m' hm' => hwf m' (List.mem_cons_of_mem _ hm'))
      have hmatch : matchesGenre pf genre m = some ((genreTexts m).any
          (fun gen => decide (pf.toLowerCase gen = pf.toLowerCase genre))) := by
        rw [genreTexts_of_texts m labels hlabels]
        simp only [matchesGenre, hlabels]
        exact someGenre_texts pf genre labels
      simp only [filterByGenre, hmatch, hrest, List.filter_cons]

/-- C10. The genre filter is exact and case-insensitive: on a store whose records each
have a `genre` array of texts, the genre-filtered result for `g` is the store filtered, in
order, by "some genre text equals `g` after lower-casing both"; so it is a subsequence of
the store, it holds exactly the records with such an element, and for a non-empty `g` it is
what the handler returns. -/
theorem genre_filter_exact (pf : Platform) (movies : Store) (g : String)
    (hwf : ∀ m ∈ movies, ∃ labels : List String,
      JObj.get? m "genre" = some (Json.arr (labels.map Json.str))) :
    ∃ filtered, filterByGenre pf g movies = some filtered ∧
      filtered = movies.filter (fun m => (genreTexts m).any
        (fun gen => decide (pf.toLowerCase gen = pf.toLowerCase g))) ∧
      filtered.Sublist movies ∧
      (∀ m, m ∈ filtered ↔
        m ∈ movies ∧ ∃ gen ∈ genreTexts m, pf.toLowerCase gen = pf.toLowerCase g) ∧
      (g ≠ "" → ∀ search, getMovies pf movies (some g) search =
        some ⟨200, .movies filtered⟩) := by
  refine ⟨_, filterByGenre_eq_filter pf g movies hwf, rfl, List.filter_sublist _, ?_, ?_⟩
  · intro m
    simp [List.mem_filter]
  · intro hne search
    simp [getMovies, truthy, hne, filterByGenre_eq_filter pf g movies hwf]

/-- Witness for C10: filtering a store of a `["Sci-fi"]` and an `["Action"]` record by
`action` returns the `["Action"]` record, and only it. -/
theorem genre_filter_exact_witness :
    (∃ filtered, filterByGenre samplePlatform "action" [storedDune, storedAction] =
        some filtered ∧
      filtered = [storedDune, storedAction].filter (fun m => (genreTexts m).any
        (fun gen => decide (samplePlatform.toLowerCase gen =
          samplePlatform.toLowerCase "action"))) ∧
      filtered.Sublist [storedDune, storedAction] ∧
      (∀ m, m ∈ filtered ↔ m ∈ [storedDune, storedAction] ∧
        ∃ gen ∈ genreTexts m, samplePlatform.toLowerCase gen =
          samplePlatform.toLowerCase "action") ∧
      ("action" ≠ "" → ∀ search,
        getMovies samplePlatform [storedDune, storedAction] (some "action") search =
          some ⟨200, .movies filtered⟩)) ∧
    filterByGenre samplePlatform "action" [storedDune, storedAction] = some [storedAction] :=
  ⟨genre_filter_exact samplePlatform [storedDune, storedAction] "action" (by
    intro m hm
    simp only [List.mem_cons, List.mem_singleton, List.not_mem_nil, or_false] at hm
    rcases hm with rfl | rfl
    · exact ⟨["Sci-fi"], rfl⟩
    · exact ⟨["Action"], rfl⟩), by rfl⟩

/-- On records whose `title` is a text the title search never throws: it is `find?`. -/
theorem findByTitle_eq_find (pf : Platform) (search : String) (movies : Store)
    (hwf : ∀ m ∈ movies, ∃ title, JObj.get? m "title" = some (Json.str title)) :
    findByTitle pf search movies =
      some (movies.find? (fun m => (titleText m).any
        (fun t => decide (pf.toLowerCase t = pf.toLowerCase search)))) := by
  induction movies with
  | nil => rfl
  | cons m rest ih =>
      obtain ⟨title, htitle⟩ := hwf m (List.mem_cons_self _ _)
      have hrest := ih (fun m' hm' => hwf m' (List.mem_cons_of_mem _ hm'))
      have htext : titleText m = some title := by simp only [titleText, htitle]
      by_cases h : pf.toLowerCase title = pf.toLowerCase search
      · simp [findByTitle, htitle, htext, h, List.find?_cons]
      · simp [findByTitle, htitle, htext, h, List.find?_cons, hrest]

/-- The predicate of the title search holds for the records with a matching title text. -/
theorem titleText_any_iff (pf : Platform) (search : String) (m : JObj) :
    (titleText m).any (fun t => decide (pf.toLowerCase t = pf.toLowerCase search)) = true ↔
      ∃ t, titleText m = some t ∧ pf.toLowerCase t = pf.toLowerCase search := by
  cases titleText m with
  | none => simp [Option.any]
  | some t => simp [Option.any]

/-- C11. Title search is first-match, single result: on a store whose records each have a
text `title`, the search branch returns one value, which is a record exactly when it is
the first record, in insertion order, whose title equals `s` after lower-casing both, and
is the not-found value exactly when no title matches; for a non-empty `s`, with `genre`
absent or empty, it is what the handler returns. -/
theorem title_search_first_match (pf : Platform) (movies : Store) (s : String)
    (hwf : ∀ m ∈ movies, ∃ title, JObj.get? m "title" = some (Json.str title)) :
    ∃ found : Option JObj, findByTitle pf s movies = some found ∧
      (∀ m, found = some m ↔
        (∃ t, titleText m = some t ∧ pf.toLowerCase t = pf.toLowerCase s) ∧
        ∃ before after, movies = before ++ m :: after ∧
          ∀ b ∈ before, ∀ t, titleText b = some t → pf.toLowerCase t ≠ pf.toLowerCase s) ∧
      (found = none ↔
        ∀ m ∈ movies, ∀ t, titleText m = some t → pf.toLowerCase t ≠ pf.toLowerCase s) ∧
      (s ≠ "" → ∀ genre, genre = none ∨ genre = some "" →
        getMovies pf movies genre (some s) =
          some (match found with
            | some movie => ⟨200, .movie movie⟩
            | none => ⟨200, .nothing⟩)) := by
  refine ⟨_, findByTitle_eq_find pf s movies hwf, ?_, ?_, ?_⟩
  · intro m
    rw [List.find?_eq_some, titleText_any_iff]
    constructor
    · rintro ⟨hm, before, after, hsplit, hbefore⟩
      refine ⟨hm, before, after, hsplit, ?_⟩
      intro b hb t ht heq
      have hfalse := hbefore b hb
      have htrue := (titleText_any_iff pf s b).mpr ⟨t, ht, heq⟩
      rw [htrue] at hfalse
      exact absurd hfalse (by decide)
    · rintro ⟨hm, before, after, hsplit, hbefore⟩
      refine ⟨hm, before, after, hsplit, ?_⟩
      intro b hb
      cases hany : (titleText b).any
          (fun t => decide (pf.toLowerCase t = pf.toLowerCase s)) with
      | false => rfl
      | true =>
          obtain ⟨t, ht, heq⟩ := (titleText_any_iff pf s b).mp hany
          exact absurd heq (hbefore b hb t ht)
  · rw [List.find?_eq_none]
    constructor
    · intro hnone m hm t ht heq
      exact hnone m hm ((titleText_any_iff pf s m).mpr ⟨t, ht, heq⟩)
    · intro hnone m hm hany
      obtain ⟨t, ht, heq⟩ := (titleText_any_iff pf s m).mp hany
      exact hnone m hm t ht heq
  · intro hne genre hgenre
    have hg : truthy genre = false := by
      rcases hgenre with rfl | rfl <;> simp [truthy]
    have hs : truthy (some s) = true := by simp [truthy, hne]
    simp only [getMovies, hg, hs, Option.getD_some, if_true,
      findByTitle_eq_find pf s movies hwf, Option.map_some']
    cases movies.find? (fun m => (titleText m).any
      (fun t => decide (pf.toLowerCase t = pf.toLowerCase s))) <;> rfl

/-- Witness for C11: of two stored records titled `Dune` and `DUNE`, the search for `dune`
returns the first one only. -/
theorem title_search_first_match_witness :
    (∃ found : Option JObj,
      findByTitle samplePlatform "dune" [storedAction, storedDune, storedDuneRemake] =
        some found ∧
      (∀ m, found = some m ↔
        (∃ t, titleText m = some t ∧
          samplePlatform.toLowerCase t = samplePlatform.toLowerCase "dune") ∧
        ∃ before after, [storedAction, storedDune, storedDuneRemake] = before ++ m :: after ∧
          ∀ b ∈ before, ∀ t, titleText b = some t →
            samplePlatform.toLowerCase t ≠ samplePlatform.toLowerCase "dune") ∧
      (found = none ↔
        ∀ m ∈ [storedAction, storedDune, storedDuneRemake], ∀ t, titleText m = some t →
          samplePlatform.toLowerCase t ≠ samplePlatform.toLowerCase "dune") ∧
      ("dune" ≠ "" → ∀ genre, genre = none ∨ genre = some "" →
        getMovies samplePlatform [storedAction, storedDune, storedDuneRemake] genre
            (some "dune") =
          some (match found with
            | some movie => ⟨200, .movie movie⟩
            | none => ⟨200, .nothing⟩))) ∧
    findByTitle samplePlatform "dune" [storedAction, storedDune, storedDuneRemake] =
      some (some storedDune) ∧
    findByTitle samplePlatform "alien" [storedAction, storedDune, storedDuneRemake] =
      some none :=
  ⟨title_search_first_match samplePlatform [storedAction, storedDune, storedDuneRemake]
    "dune" (by
      intro m hm
      simp only [List.mem_cons, List.mem_singleton, List.not_mem_nil, or_false] at hm
      rcases hm with rfl | rfl | rfl
      · exact ⟨"Mad Max", rfl⟩
      · exact ⟨"Dune", rfl⟩
      · exact ⟨"DUNE", rfl⟩), by rfl, by rfl⟩

/-! ## Accepted payloads and created records -/

/-- Writing a property that the object lacks appends it. -/
theorem JObj.set_of_not_mem (o : JObj) (k : String) (v : Json)
    (h : k ∉ o.map Prod.fst) : JObj.set o k v = o ++ [(k, v)] := by
  induction o with
  | nil => rfl
  | cons kv rest ih =>
      obtain ⟨k0, v0⟩ := kv
      simp only [List.map_cons, List.mem_cons, not_or] at h
      have h0 : ¬ k0 = k := fun heq => h.1 heq.symm
      simp only [JObj.set, if_neg h0, ih h.2, List.cons_append]

/-- Spreading a source with distinct names, none of them in the target, appends it. -/
theorem JObj.spread_eq_append (target source : JObj)
    (hnodup : (source.map Prod.fst).Nodup)
    (hnew : ∀ kv ∈ source, kv.1 ∉ target.map Prod.fst) :
    JObj.spread target source = target ++ source := by
  induction source generalizing target with
  | nil => simp [JObj.spread]
  | cons kv rest ih =>
      obtain ⟨k, v⟩ := kv
      rw [List.map_cons, List.nodup_cons] at hnodup
      show JObj.spread (JObj.set target k v) rest = _
      rw [JObj.set_of_not_mem target k v (hnew (k, v) (List.mem_cons_self _ _))]
      rw [ih (target ++ [(k, v)]) hnodup.2]
      · simp
      · intro kv hkv hmem
        simp only [List.map_append, List.map_cons, List.map_nil, List.mem_append,
          List.mem_singleton] at hmem
        rcases hmem with hmem | hmem
        · exact hnew kv (List.mem_cons_of_mem _ hkv) hmem
        · exact hnodup.1 (hmem ▸ List.mem_map.mpr ⟨kv, hkv, rfl⟩)

/-- An array of labels of the enumeration parses without issue. -/
theorem ZodType.parse_labels (pf : Platform) (options labels : List String)
    (path : List PathSeg) (hlabels : ∀ g ∈ labels, g ∈ options) :
    (ZodType.parse pf (.array (.enum options)) path
      (some (Json.arr (labels.map Json.str)))).1 = [] := by
  simp only [ZodType.parse, List.enum]
  rw [List.flatMap_eq_nil_iff]
  intro r hr
  obtain ⟨ix, hix, rfl⟩ := List.mem_map.mp hr
  have hmem := List.snd_mem_of_mem_enumFrom hix
  obtain ⟨g, hg, hgeq⟩ := List.mem_map.mp hmem
  rw [← hgeq]
  simp [hlabels g hg]

/-- C12. Valid full payloads are accepted unchanged: a payload with distinct property
names, all of them schema fields, whose title and director are texts, year an integer in
[1950, 2025], duration a number above 0, poster a text that parses as a URL, genre a
sequence of labels of the fixed set, and rate absent or a number in [0, 10], passes
`verifyMovie`; every field of the validated record reads as in the payload (an absent
rate stays absent); and the record that POST appends and returns is the payload with
`id`, the identifier drawn, put in front. -/
theorem valid_payload_accepted (pf : Platform) (props : JObj)
    (title director poster : String) (year : ℤ) (duration : ℚ) (genre : List String)
    (rate : Option ℚ)
    (hkeys : ∀ kv ∈ props,
      kv.1 ∈ ["title", "year", "director", "duration", "poster", "genre", "rate"])
    (hnodup : (props.map Prod.fst).Nodup)
    (htitle : JObj.get? props "title" = some (Json.str title))
    (hyear : JObj.get? props "year" = some (Json.num year))
    (hrange : 1950 ≤ year ∧ year ≤ 2025)
    (hdirector : JObj.get? props "director" = some (Json.str director))
    (hduration : JObj.get? props "duration" = some (Json.num duration))
    (hpositive : 0 < duration)
    (hposter : JObj.get? props "poster" = some (Json.str poster))
    (hurl : pf.parsesAsURL poster = true)
    (hgenre : JObj.get? props "genre" = some (Json.arr (genre.map Json.str)))
    (hlabels : ∀ g ∈ genre, g ∈ genreLabels)
    (hrate : JObj.get? props "rate" = rate.map Json.num)
    (hrated : ∀ r, rate = some r → 0 ≤ r ∧ r ≤ 10) :
    ∃ data, verifyMovie pf (.obj props) = .success data ∧
      (∀ k, JObj.get? data k = JObj.get? props k) ∧
      ∀ (uuid : String) (movies : Store),
        postMovies pf uuid movies (.obj props) =
          (movies ++ [("id", Json.str uuid) :: props],
            ⟨201, .movie (("id", Json.str uuid) :: props)⟩) := by
  have hnil : ZodObject.issues pf movieSchema props = [] := by
    rw [ZodObject.issues_eq_nil_iff]
    intro k t hk
    simp only [movieSchema, List.mem_cons, Prod.mk.injEq, List.mem_singleton,
      List.not_mem_nil, or_false] at hk
    rcases hk with ⟨rfl, rfl⟩ | ⟨rfl, rfl⟩ | ⟨rfl, rfl⟩ | ⟨rfl, rfl⟩ | ⟨rfl, rfl⟩ |
      ⟨rfl, rfl⟩ | ⟨rfl, rfl⟩
    · rw [htitle]
      simp [ZodType.parse]
    · rw [hyear]
      have hlo : ¬ ((year : ℚ) < 1950) := by
        have := hrange.1
        exact not_lt.mpr (by exact_mod_cast this)
      have hhi : ¬ ((2025 : ℚ) < year) := by
        have := hrange.2
        exact not_lt.mpr (by exact_mod_cast this)
      simp [ZodType.parse, NumCheck.issue?, hlo, hhi]
    · rw [hdirector]
      simp [ZodType.parse]
    · rw [hduration]
      simp [ZodType.parse, NumCheck.issue?, hpositive]
    · rw [hposter]
      simp [ZodType.parse, hurl]
    · rw [hgenre]
      exact ZodType.parse_labels pf genreLabels genre _ hlabels
    · rw [hrate]
      cases rate with
      | none => simp [ZodType.parse]
      | some r =>
          have hr := hrated r rfl
          simp [ZodType.parse, NumCheck.issue?, hr.1, hr.2]
  have hok := ZodObject.safeParse_of_issues_nil pf movieSchema props hnil
  refine ⟨_, hok, ?_, ?_⟩
  · intro k
    by_cases hk : k ∈ movieSchema.map Prod.fst
    · obtain ⟨kt, hkt, hfst⟩ := List.mem_map.mp hk
      obtain ⟨k', t⟩ := kt
      simp only at hfst
      subst hfst
      rw [ZodObject.get?_data pf movieSchema props movieSchema_keys_nodup k' t hkt]
      exact ZodType.parse_value pf t _ _
        ((ZodObject.issues_eq_nil_iff pf movieSchema props).mp hnil k' t hkt)
    · rw [JObj.get?_eq_none_of_not_mem _ k (fun kv hkv heq =>
          hk (heq ▸ ZodObject.data_keys pf movieSchema props kv hkv)),
        JObj.get?_eq_none_of_not_mem props k (fun kv hkv heq =>
          hk (heq ▸ hkeys kv hkv))]
  · intro uuid movies
    have hspread : JObj.spread [("id", Json.str uuid)] props =
        ("id", Json.str uuid) :: props := by
      rw [JObj.spread_eq_append _ props hnodup]
      · rfl
      · intro kv hkv hmem
        have hfield := hkeys kv hkv
        simp only [List.map_cons, List.map_nil, List.mem_singleton] at hmem
        rw [hmem] at hfield
        revert hfield
        decide
    rw [postMovies_success pf uuid movies _ _ hok]
    simp only [Json.ownProps, hspread]

/-- Witness for C12: the Dune payload of the scenario, which has no rate. -/
theorem valid_payload_accepted_witness :
    ∃ data, verifyMovie samplePlatform (.obj duneBody) = .success data ∧
      (∀ k, JObj.get? data k = JObj.get? duneBody k) ∧
      ∀ (uuid : String) (movies : Store),
        postMovies samplePlatform uuid movies (.obj duneBody) =
          (movies ++ [("id", Json.str uuid) :: duneBody],
            ⟨201, .movie (("id", Json.str uuid) :: duneBody)⟩) :=
  valid_payload_accepted samplePlatform duneBody "Dune" "D. Lynch" "http://x.com/p.jpg"
    1984 137 ["Sci-fi"] none (by decide) (by decide) (by rfl) (by rfl) (by decide)
    (by rfl) (by rfl) (by norm_num) (by rfl) (by rfl) (by rfl) (by decide) (by rfl)
    (by intro r hr; cases hr)

/-! ## Partial against full validation -/

/-- An optional schema accepts an absent value and parses a present one as its inner
schema does. -/
theorem ZodType.parse_optional (pf : Platform) (t : ZodType) (path : List PathSeg)
    (input : Option Json) :
    ZodType.parse pf (.optional t) path input =
      match input with
      | none => ([], none)
      | some v => ZodType.parse pf t path (some v) := by
  cases input <;> simp [ZodType.parse]

/-- The fields of the partial schema are those of the schema, made optional. -/
theorem ZodObject.mem_toPartial (shape : ZodObject) (k : String) (t' : ZodType) :
    (k, t') ∈ ZodObject.toPartial shape ↔ ∃ t, (k, t) ∈ shape ∧ t' = .optional t := by
  simp only [ZodObject.toPartial, List.mem_map, Prod.mk.injEq]
  constructor
  · rintro ⟨kt, hkt, rfl, rfl⟩
    exact ⟨kt.2, hkt, rfl⟩
  · rintro ⟨t, ht, rfl⟩
    exact ⟨(k, t), ht, rfl, rfl⟩

/-- An object passes `safeParse` exactly when it has no issue. -/
theorem ZodObject.safeParse_success_iff (pf : Platform) (shape : ZodObject) (props : JObj) :
    (∃ data, ZodObject.safeParse pf shape (.obj props) = .success data) ↔
      ZodObject.issues pf shape props = [] := by
  constructor
  · rintro ⟨data, h⟩
    obtain ⟨props', hobj, hnil, _⟩ := ZodObject.safeParse_success pf shape _ data h
    cases hobj
    exact hnil
  · intro h
    exact ⟨_, ZodObject.safeParse_of_issues_nil pf shape props h⟩

/-- The check of the present fields, spelled out field by field. -/
theorem presentFieldsPass_iff (pf : Platform) (props : JObj) :
    presentFieldsPass pf props = true ↔
      ∀ k t, (k, t) ∈ movieSchema → ∀ v, JObj.get? props k = some v →
        (ZodType.parse pf t [PathSeg.key k] (some v)).1 = [] := by
  simp only [presentFieldsPass, List.all_eq_true]
  constructor
  · intro h k t hk v hv
    have := h (k, t) hk
    simp only [hv, List.isEmpty_iff] at this
    exact this
  · intro h kt hkt
    cases hv : JObj.get? props kt.1 with
    | none => rfl
    | some v =>
        simp only [List.isEmpty_iff]
        exact h kt.1 kt.2 hkt v hv

/-- On an object that passes the schema, the partial schema parses every field as the
schema does. -/
theorem ZodObject.parseFields_toPartial (pf : Platform) (shape : ZodObject) (props : JObj)
    (hnil : ZodObject.issues pf shape props = []) :
    ZodObject.parseFields pf (ZodObject.toPartial shape) props =
      ZodObject.parseFields pf shape props := by
  simp only [ZodObject.parseFields, ZodObject.toPartial, List.map_map]
  apply List.map_congr_left
  intro kt hkt
  have hfield := (ZodObject.issues_eq_nil_iff pf shape props).mp hnil kt.1 kt.2 hkt
  have hvalue := ZodType.parse_value pf kt.2 _ _ hfield
  simp only [Function.comp, ZodType.parse_optional]
  cases hget : JObj.get? props kt.1 with
  | none =>
      rw [hget] at hfield hvalue
      simp only [Prod.mk.injEq, true_and]
      exact Prod.ext hfield.symm hvalue.symm
  | some v => rfl

/-- C13. Partial validation applies the per-field constraints of full validation: a
payload object passes `verifyMoviePartial` exactly when every schema field present in it
raises no issue under the schema that `verifyMovie` applies to that field; an absent field
is never cited by a violation, and the empty payload passes; and a payload that passes
`verifyMovie` passes `verifyMoviePartial` with the same validated data. -/
theorem partial_same_constraints (pf : Platform) (props : JObj) :
    ((∃ data, verifyMoviePartial pf (.obj props) = .success data) ↔
      presentFieldsPass pf props = true) ∧
    (∀ k, JObj.get? props k = none →
      ∀ i ∈ (verifyMoviePartial pf (.obj props)).violations, ¬ i.cites k) ∧
    verifyMoviePartial pf (.obj []) = .success [] ∧
    (∀ data, verifyMovie pf (.obj props) = .success data →
      verifyMoviePartial pf (.obj props) = .success data) := by
  refine ⟨?_, ?_, ?_, ?_⟩
  · rw [verifyMoviePartial, ZodObject.safeParse_success_iff, ZodObject.issues_eq_nil_iff,
      presentFieldsPass_iff]
    constructor
    · intro h k t hk v hv
      have := h k (.optional t) ((ZodObject.mem_toPartial movieSchema k _).mpr ⟨t, hk, rfl⟩)
      rw [ZodType.parse_optional, hv] at this
      exact this
    · intro h k t' hk
      obtain ⟨t, ht, rfl⟩ := (ZodObject.mem_toPartial movieSchema k t').mp hk
      rw [ZodType.parse_optional]
      cases hv : JObj.get? props k with
      | none => rfl
      | some v => exact h k t ht v hv
  · intro k hk i hi hc
    rw [verifyMoviePartial, ZodObject.violations_safeParse] at hi
    obtain ⟨t', ht', hit⟩ := ZodObject.field_of_cites pf _ props i k hi hc
    obtain ⟨t, _, rfl⟩ := (ZodObject.mem_toPartial movieSchema k t').mp ht'
    rw [ZodType.parse_optional, hk] at hit
    exact absurd hit (List.not_mem_nil _)
  · rfl
  · intro data hdata
    obtain ⟨props', hobj, hnil, hd⟩ := ZodObject.safeParse_success pf movieSchema _ data hdata
    cases hobj
    have hfields := ZodObject.parseFields_toPartial pf movieSchema props hnil
    have hissues : ZodObject.issues pf (ZodObject.toPartial movieSchema) props = [] := by
      rw [ZodObject.issues, hfields]
      exact hnil
    rw [verifyMoviePartial, ZodObject.safeParse_of_issues_nil pf _ props hissues, hd,
      ZodObject.data, hfields]
    rfl

/-- Witness for C13: the Dune payload passes both validators with the same data; a body
holding only a rate of 7 passes the partial one, and one holding only a year of 1800 does
not. -/
theorem partial_same_constraints_witness :
    verifyMoviePartial samplePlatform (.obj duneBody) = .success duneBody ∧
    (∃ data, verifyMoviePartial samplePlatform (.obj [("rate", .num 7)]) = .success data) ∧
    ¬ (∃ data, verifyMoviePartial samplePlatform (.obj [("year", .num 1800)]) =
      .success data) :=
  ⟨(partial_same_constraints samplePlatform duneBody).2.2.2 duneBody (by rfl),
    (partial_same_constraints samplePlatform [("rate", .num 7)]).1.mpr (by rfl),
    fun h => absurd ((partial_same_constraints samplePlatform [("year", .num 1800)]).1.mp h)
      (by decide)⟩

/-! ## Create appends, partial update is idempotent -/

/-- C14. Create appends: for a body that passes `verifyMovie`, the POST handler leaves the
store with exactly one record added at the end, every earlier record at its position, and
returns with 201 the record that it appended. -/
theorem create_appends (pf : Platform) (uuid : String) (movies : Store) (body : Json)
    (data : JObj) (hvalid : verifyMovie pf body = .success data) :
    ∃ created, postMovies pf uuid movies body = (movies ++ [created], ⟨201, .movie created⟩) ∧
      (postMovies pf uuid movies body).1.length = movies.length + 1 ∧
      (∀ i, i < movies.length → (postMovies pf uuid movies body).1[i]? = movies[i]?) ∧
      (postMovies pf uuid movies body).1[movies.length]? = some created := by
  refine ⟨_, postMovies_success pf uuid movies body data hvalid, ?_, ?_, ?_⟩
  · rw [postMovies_success pf uuid movies body data hvalid]
    simp
  · intro i hi
    rw [postMovies_success pf uuid movies body data hvalid]
    exact List.getElem?_append_left hi
  · rw [postMovies_success pf uuid movies body data hvalid]
    simp

/-- Witness for C14: creating Dune in a store that holds one record. -/
theorem create_appends_witness :
    ∃ created, postMovies samplePlatform "generated-uuid" [storedAction] (.obj duneBody) =
        ([storedAction] ++ [created], ⟨201, .movie created⟩) ∧
      (postMovies samplePlatform "generated-uuid" [storedAction] (.obj duneBody)).1.length =
        [storedAction].length + 1 ∧
      (∀ i, i < [storedAction].length →
        (postMovies samplePlatform "generated-uuid" [storedAction] (.obj duneBody)).1[i]? =
          [storedAction][i]?) ∧
      (postMovies samplePlatform "generated-uuid" [storedAction]
        (.obj duneBody)).1[[storedAction].length]? = some created :=
  create_appends samplePlatform "generated-uuid" [storedAction] (.obj duneBody) duneBody
    (by rfl)

/-- Writing the value that a property already has changes nothing. -/
theorem JObj.set_of_get? (o : JObj) (k : String) (v : Json)
    (h : JObj.get? o k = some v) : JObj.set o k v = o := by
  induction o with
  | nil => simp [JObj.get?] at h
  | cons kv rest ih =>
      obtain ⟨k0, v0⟩ := kv
      by_cases h0 : k0 = k
      · subst h0
        simp only [JObj.get?, if_true, Option.some.injEq] at h
        simp only [JObj.set, if_true, h]
      · simp only [JObj.get?, if_neg h0] at h
        simp only [JObj.set, if_neg h0, ih h]

/-- Spreading a source onto a target that already reads as the source changes nothing. -/
theorem JObj.spread_of_get? (target source : JObj)
    (h : ∀ kv ∈ source, JObj.get? target kv.1 = some kv.2) :
    JObj.spread target source = target := by
  induction source with
  | nil => rfl
  | cons kv rest ih =>
      show JObj.spread (JObj.set target kv.1 kv.2) rest = target
      rw [JObj.set_of_get? target kv.1 kv.2 (h kv (List.mem_cons_self _ _))]
      exact ih (fun kv' hkv' => h kv' (List.mem_cons_of_mem _ hkv'))

/-- In an object with distinct names every listed property reads as listed. -/
theorem JObj.get?_of_mem (o : JObj) (hnodup : (o.map Prod.fst).Nodup) :
    ∀ kv ∈ o, JObj.get? o kv.1 = some kv.2 := by
  induction o with
  | nil => intro kv hkv; exact absurd hkv (List.not_mem_nil _)
  | cons kv0 rest ih =>
      rw [List.map_cons, List.nodup_cons] at hnodup
      intro kv hkv
      rcases List.mem_cons.mp hkv with rfl | hmem
      · simp [JObj.get?]
      · have hne : kv0.1 ≠ kv.1 := fun heq =>
          hnodup.1 (heq ▸ List.mem_map.mpr ⟨kv, hmem, rfl⟩)
        simp only [JObj.get?, if_neg hne]
        exact ih hnodup.2 kv hmem

/-- Spreading the same source twice, when its names are distinct, is spreading it once. -/
theorem JObj.spread_idem (target source : JObj) (hnodup : (source.map Prod.fst).Nodup) :
    JObj.spread (JObj.spread target source) source = JObj.spread target source := by
  apply JObj.spread_of_get?
  intro kv hkv
  rw [JObj.get?_spread target source kv.1 hnodup, JObj.get?_of_mem source hnodup kv hkv]
  rfl

/-- C15. Idempotence of partial update: when the PATCH handler addresses the stored record
`R` and the body passes `verifyMoviePartial`, applying the handler a second time, to the
store that the first application left, gives the same store and the same response, which
carries `R` merged with the validated data; and merging the validated data once more over
that merged record gives the merged record again. -/
theorem patch_idempotent (pf : Platform) (movies : Store) (id : String) (R : JObj)
    (body : Json) (data : JObj)
    (hR : movies.find? (hasId id) = some R)
    (hvalid : verifyMoviePartial pf body = .success data) :
    patchMovie pf (patchMovie pf movies id body).1 id body = patchMovie pf movies id body ∧
    (patchMovie pf movies id body).2 = ⟨201, .movie (JObj.spread R data)⟩ ∧
    JObj.spread (JObj.spread R data) data = JObj.spread R data := by
  have hfound := patchMovie_found pf movies id R body data hR hvalid
  refine ⟨?_, ?_, ?_⟩
  · rw [hfound]
    exact hfound
  · rw [hfound]
  · obtain ⟨props, _, _, hdata⟩ := ZodObject.safeParse_success pf _ body data hvalid
    apply JObj.spread_idem
    rw [hdata]
    apply ZodObject.data_nodup
    rw [toPartial_keys]
    exact movieSchema_keys_nodup

/-- Witness for C15: patching the stored Dune record twice with a new title and a rate. -/
theorem patch_idempotent_witness :
    patchMovie samplePlatform
        (patchMovie samplePlatform [storedDune] "m1"
          (.obj [("title", .str "Dune: Part Two"), ("rate", .num 8)])).1 "m1"
        (.obj [("title", .str "Dune: Part Two"), ("rate", .num 8)]) =
      patchMovie samplePlatform [storedDune] "m1"
        (.obj [("title", .str "Dune: Part Two"), ("rate", .num 8)]) ∧
    (patchMovie samplePlatform [storedDune] "m1"
        (.obj [("title", .str "Dune: Part Two"), ("rate", .num 8)])).2 =
      ⟨201, .movie (JObj.spread storedDune
        [("title", .str "Dune: Part Two"), ("rate", .num 8)])⟩ ∧
    JObj.spread (JObj.spread storedDune [("title", .str "Dune: Part Two"), ("rate", .num 8)])
        [("title", .str "Dune: Part Two"), ("rate", .num 8)] =
      JObj.spread storedDune [("title", .str "Dune: Part Two"), ("rate", .num 8)] :=
  patch_idempotent samplePlatform [storedDune] "m1" storedDune
    (.obj [("title", .str "Dune: Part Two"), ("rate", .num 8)])
    [("title", .str "Dune: Part Two"), ("rate", .num 8)] (by rfl) (by rfl)

/-! ## Collected violations and the validity of the store -/

/-- An issue raised by the parse of a field cites that field. -/
theorem ZodType.cites_of_mem_parse (pf : Platform) (t : ZodType) (k : String)
    (input : Option Json) (i : ZodIssue)
    (hi : i ∈ (ZodType.parse pf t [PathSeg.key k] input).1) : i.cites k := by
  obtain ⟨rest, hrest⟩ := ZodType.parse_path pf t _ _ i hi
  unfold ZodIssue.cites
  rw [← hrest]
  rfl

/-- C16. Violations are collected, not short-circuited: on a payload object, every issue
that the check of any schema field raises is listed by `verifyMovie` and cites that field,
so each offending field has its violation however many fields offend; a required field
that is missing is listed with an `invalid_type` violation at that field; and
`verifyMoviePartial` lists, for every field that is present, every issue that the check of
that field raises. -/
theorem violations_collected (pf : Platform) (props : JObj) :
    (∀ k t, (k, t) ∈ movieSchema →
      (∀ i ∈ (ZodType.parse pf t [PathSeg.key k] (JObj.get? props k)).1,
        i ∈ (verifyMovie pf (.obj props)).violations ∧ i.cites k) ∧
      ((ZodType.parse pf t [PathSeg.key k] (JObj.get? props k)).1 ≠ [] →
        ∃ i ∈ (verifyMovie pf (.obj props)).violations, i.cites k)) ∧
    (∀ k, k ∈ ["title", "year", "director", "duration", "poster", "genre"] →
      JObj.get? props k = none →
      (⟨"invalid_type", [PathSeg.key k]⟩ : ZodIssue) ∈
        (verifyMovie pf (.obj props)).violations) ∧
    (∀ k t, (k, t) ∈ movieSchema → ∀ v, JObj.get? props k = some v →
      (∀ i ∈ (ZodType.parse pf t [PathSeg.key k] (some v)).1,
        i ∈ (verifyMoviePartial pf (.obj props)).violations ∧ i.cites k) ∧
      ((ZodType.parse pf t [PathSeg.key k] (some v)).1 ≠ [] →
        ∃ i ∈ (verifyMoviePartial pf (.obj props)).violations, i.cites k)) := by
  have hfull : ∀ k t, (k, t) ∈ movieSchema →
      ∀ i ∈ (ZodType.parse pf t [PathSeg.key k] (JObj.get? props k)).1,
        i ∈ (verifyMovie pf (.obj props)).violations ∧ i.cites k := by
    intro k t hk i hi
    rw [verifyMovie, ZodObject.violations_safeParse]
    exact ⟨ZodObject.mem_issues pf movieSchema props k t i hk hi,
      ZodType.cites_of_mem_parse pf t k _ i hi⟩
  have hpart : ∀ k t, (k, t) ∈ movieSchema → ∀ v, JObj.get? props k = some v →
      ∀ i ∈ (ZodType.parse pf t [PathSeg.key k] (some v)).1,
        i ∈ (verifyMoviePartial pf (.obj props)).violations ∧ i.cites k := by
    intro k t hk v hv i hi
    rw [verifyMoviePartial, ZodObject.violations_safeParse]
    refine ⟨?_, ZodType.cites_of_mem_parse pf t k _ i hi⟩
    apply ZodObject.mem_issues pf _ props k (.optional t) i
      ((ZodObject.mem_toPartial movieSchema k _).mpr ⟨t, hk, rfl⟩)
    rw [ZodType.parse_optional, hv]
    exact hi
  refine ⟨?_, ?_, ?_⟩
  · intro k t hk
    refine ⟨hfull k t hk, ?_⟩
    intro hne
    obtain ⟨i, hi⟩ := List.exists_mem_of_ne_nil _ hne
    exact ⟨i, hfull k t hk i hi⟩
  · intro k hk hnone
    simp only [List.mem_cons, List.mem_singleton, List.not_mem_nil, or_false] at hk
    rcases hk with rfl | rfl | rfl | rfl | rfl | rfl
    · exact (hfull "title" (.string false) (by simp [movieSchema]) _
        (by rw [hnone]; simp [ZodType.parse])).1
    · exact (hfull "year" (.number [.int, .min 1950 true, .max 2025 true])
        (by simp [movieSchema]) _ (by rw [hnone]; simp [ZodType.parse])).1
    · exact (hfull "director" (.string false) (by simp [movieSchema]) _
        (by rw [hnone]; simp [ZodType.parse])).1
    · exact (hfull "duration" (.number [.min 0 false]) (by simp [movieSchema]) _
        (by rw [hnone]; simp [ZodType.parse])).1
    · exact (hfull "poster" (.string true) (by simp [movieSchema]) _
        (by rw [hnone]; simp [ZodType.parse])).1
    · exact (hfull "genre" (.array (.enum genreLabels)) (by simp [movieSchema]) _
        (by rw [hnone]; simp [ZodType.parse])).1
  · intro k t hk v hv
    refine ⟨hpart k t hk v hv, ?_⟩
    intro hne
    obtain ⟨i, hi⟩ := List.exists_mem_of_ne_nil _ hne
    exact ⟨i, hpart k t hk v hv i hi⟩

/-- Witness for C16: a payload without title, with year 1800 and duration -5 gets the three
violations from `verifyMovie`, and the two of its present fields from
`verifyMoviePartial`. -/
theorem violations_collected_witness :
    (⟨"invalid_type", [PathSeg.key "title"]⟩ : ZodIssue) ∈
      (verifyMovie samplePlatform (.obj brokenBody)).violations ∧
    (∃ i ∈ (verifyMovie samplePlatform (.obj brokenBody)).violations, i.cites "year") ∧
    (∃ i ∈ (verifyMoviePartial samplePlatform (.obj brokenBody)).violations,
      i.cites "duration") ∧
    (verifyMovie samplePlatform (.obj brokenBody)).violations =
      [⟨"invalid_type", [PathSeg.key "title"]⟩, ⟨"too_small", [PathSeg.key "year"]⟩,
        ⟨"too_small", [PathSeg.key "duration"]⟩] ∧
    (verifyMoviePartial samplePlatform (.obj brokenBody)).violations =
      [⟨"too_small", [PathSeg.key "year"]⟩, ⟨"too_small", [PathSeg.key "duration"]⟩] :=
  ⟨(violations_collected samplePlatform brokenBody).2.1 "title" (by decide) (by rfl),
    ((violations_collected samplePlatform brokenBody).1 "year"
      (.number [.int, .min 1950 true, .max 2025 true]) (by simp [movieSchema])).2 (by decide),
    ((violations_collected samplePlatform brokenBody).2.2 "duration"
      (.number [.min 0 false]) (by simp [movieSchema]) (.num (-5)) (by rfl)).2 (by decide),
    by rfl, by rfl⟩

/-- The name `id` is not a field of `movieSchema`. -/
theorem movieSchema_ne_id (k : String) (t : ZodType) (h : (k, t) ∈ movieSchema) :
    k ≠ "id" := by
  intro heq
  subst heq
  simp [movieSchema] at h

/-- A record that reads, at every schema field, as a record that satisfies the schema
satisfies it too. -/
theorem satisfiesSchema_of_fields (pf : Platform) (movie : JObj)
    (h : ∀ k t, (k, t) ∈ movieSchema →
      (ZodType.parse pf t [PathSeg.key k] (JObj.get? movie k)).1 = []) :
    satisfiesSchema pf movie := by
  rw [satisfiesSchema, verifyMovie, ZodObject.violations_safeParse,
    ZodObject.issues_eq_nil_iff]
  exact h

/-- A record that satisfies the schema raises no issue at any field. -/
theorem satisfiesSchema_fields (pf : Platform) (movie : JObj) (h : satisfiesSchema pf movie) :
    ∀ k t, (k, t) ∈ movieSchema →
      (ZodType.parse pf t [PathSeg.key k] (JObj.get? movie k)).1 = [] := by
  rw [satisfiesSchema, verifyMovie, ZodObject.violations_safeParse,
    ZodObject.issues_eq_nil_iff] at h
  exact h

/-- The record that POST builds from a valid body with distinct property names satisfies
the schema. -/
theorem satisfiesSchema_created (pf : Platform) (uuid : String) (props data : JObj)
    (hnodup : (props.map Prod.fst).Nodup)
    (hvalid : verifyMovie pf (.obj props) = .success data) :
    satisfiesSchema pf (JObj.spread [("id", Json.str uuid)] props) := by
  obtain ⟨props', hobj, hnil, _⟩ := ZodObject.safeParse_success pf movieSchema _ data hvalid
  cases hobj
  apply satisfiesSchema_of_fields
  intro k t hk
  have hne : ¬ "id" = k := fun heq => movieSchema_ne_id k t hk heq.symm
  have hread : JObj.get? (JObj.spread [("id", Json.str uuid)] props) k = JObj.get? props k := by
    rw [JObj.get?_spread _ props k hnodup]
    simp only [JObj.get?, if_neg hne]
    cases JObj.get? props k <;> rfl
  rw [hread]
  exact (ZodObject.issues_eq_nil_iff pf movieSchema props).mp hnil k t hk

/-- The record that PATCH returns for a stored record that satisfies the schema and a
valid body satisfies the schema. -/
theorem satisfiesSchema_merged (pf : Platform) (R : JObj) (body : Json) (data : JObj)
    (hR : satisfiesSchema pf R)
    (hvalid : verifyMoviePartial pf body = .success data) :
    satisfiesSchema pf (JObj.spread R data) := by
  obtain ⟨props, _, hnil, hdata⟩ := ZodObject.safeParse_success pf _ body data hvalid
  have hnodup : ((ZodObject.toPartial movieSchema).map Prod.fst).Nodup := by
    rw [toPartial_keys]
    exact movieSchema_keys_nodup
  apply satisfiesSchema_of_fields
  intro k t hk
  have hkp : (k, ZodType.optional t) ∈ ZodObject.toPartial movieSchema :=
    (ZodObject.mem_toPartial movieSchema k _).mpr ⟨t, hk, rfl⟩
  have hissue := (ZodObject.issues_eq_nil_iff pf _ props).mp hnil k _ hkp
  have hfield : JObj.get? data k = JObj.get? props k := by
    rw [hdata, ZodObject.get?_data pf _ props hnodup k _ hkp]
    exact ZodType.parse_value pf _ _ _ hissue
  rw [JObj.get?_spread R data k (hdata ▸ ZodObject.data_nodup pf _ props hnodup), hfield]
  rw [ZodType.parse_optional] at hissue
  cases hv : JObj.get? props k with
  | none => exact satisfiesSchema_fields pf R hR k t hk
  | some v =>
      rw [hv] at hissue
      exact hissue

/-- C17. Store validity is preserved: when every record of the store satisfies the full
movie schema, so does every record of the store that a partial-update request leaves,
which is the store as it was whatever the answer, and so does every record of the store
that a create request leaves (the property names of the body being distinct); a create
that is rejected leaves the store as it was; and the record that a successful partial
update returns satisfies the schema as well. -/
theorem store_validity_preserved (pf : Platform) (movies : Store)
    (hstore : ∀ m ∈ movies, satisfiesSchema pf m) :
    (∀ (id : String) (body : Json),
      (patchMovie pf movies id body).1 = movies ∧
      ∀ m ∈ (patchMovie pf movies id body).1, satisfiesSchema pf m) ∧
    (∀ (uuid : String) (body : Json), (body.ownProps.map Prod.fst).Nodup →
      ∀ m ∈ (postMovies pf uuid movies body).1, satisfiesSchema pf m) ∧
    (∀ (uuid : String) (body : Json) (issues : List ZodIssue),
      verifyMovie pf body = .failure issues →
      postMovies pf uuid movies body = (movies, ⟨422, .error issues⟩)) ∧
    (∀ (id : String) (body : Json) (R data : JObj),
      movies.find? (hasId id) = some R → verifyMoviePartial pf body = .success data →
      (patchMovie pf movies id body).2 = ⟨201, .movie (JObj.spread R data)⟩ ∧
      satisfiesSchema pf (JObj.spread R data)) := by
  have hpatch : ∀ (id : String) (body : Json), (patchMovie pf movies id body).1 = movies := by
    intro id body
    unfold patchMovie
    cases movies.findIdx? (hasId id) with
    | none => rfl
    | some i => cases verifyMoviePartial pf body <;> rfl
  refine ⟨?_, ?_, ?_, ?_⟩
  · intro id body
    refine ⟨hpatch id body, ?_⟩
    rw [hpatch id body]
    exact hstore
  · intro uuid body hnodup m hm
    cases hv : verifyMovie pf body with
    | failure issues =>
        simp only [postMovies, hv] at hm
        exact hstore m hm
    | success data =>
        rw [postMovies_success pf uuid movies body data hv] at hm
        obtain ⟨props, hobj, _, _⟩ := ZodObject.safeParse_success pf movieSchema _ data hv
        subst hobj
        rcases List.mem_append.mp hm with hold | hnew
        · exact hstore m hold
        · rw [List.mem_singleton.mp hnew]
          exact satisfiesSchema_created pf uuid props data hnodup hv
  · intro uuid body issues hv
    simp only [postMovies, hv]
  · intro id body R data hR hvalid
    refine ⟨by rw [patchMovie_found pf movies id R body data hR hvalid], ?_⟩
    exact satisfiesSchema_merged pf R body data
      (hstore R (List.mem_of_find?_eq_some hR)) hvalid

/-- Witness for C17: a store holding the Dune record; a create of a valid payload, a
create rejected for its year, and a partial update leave every record satisfying the
schema. -/
theorem store_validity_preserved_witness :
    (∀ m ∈ (postMovies samplePlatform "generated-uuid" [storedDune] (.obj ratedBody)).1,
      satisfiesSchema samplePlatform m) ∧
    postMovies samplePlatform "generated-uuid" [storedDune]
        (.obj (("year", .num 1800) :: duneBody)) =
      ([storedDune], ⟨422, .error [⟨"too_small", [PathSeg.key "year"]⟩]⟩) ∧
    (patchMovie samplePlatform [storedDune] "m1" (.obj [("rate", .num 8)])).1 =
      [storedDune] ∧
    satisfiesSchema samplePlatform (JObj.spread storedDune [("rate", .num 8)]) := by
  have hstore : ∀ m ∈ [storedDune], satisfiesSchema samplePlatform m := by
    intro m hm
    rw [List.mem_singleton.mp hm]
    rfl
  have h := store_validity_preserved samplePlatform [storedDune] hstore
  exact ⟨h.2.1 "generated-uuid" (.obj ratedBody) (by decide),
    h.2.2.1 "generated-uuid" (.obj (("year", .num 1800) :: duneBody)) _ (by rfl),
    (h.1 "m1" (.obj [("rate", .num 8)])).1,
    (h.2.2.2 "m1" (.obj [("rate", .num 8)]) storedDune [("rate", .num 8)]
      (by rfl) (by rfl)).2⟩

end MoviesApi
